import Mathlib

/-!
Shallow embedding of the SAC implementation in `src/sac/main.py` of the
repository `arjun-kg/rl_implementations`, together with proofs of the
specification claims about it.

Modelling conventions:
* Python floats are modelled as real numbers (`ℝ`).
* Tensors are modelled per scalar entry; a batch of per-sample scalars is a
  `List ℝ`, a batch of per-sample vectors is a `List (List ℝ)`.
* PyTorch autograd is modelled by forward-mode dual numbers (`Dual`): a value
  together with a directional derivative (tangent) along one chosen direction
  of the inputs of the computation graph.  `Tensor.detach()` is the operation
  zeroing the tangent.
* Sources of randomness (`random.sample`, `Normal(...).sample()`) are
  modelled as explicit inputs: a list of chosen indices for `random.sample`
  and standard-normal draws for Gaussian sampling.
* The `torch.optim.Adam` optimizer objects are created outside the core and
  passed to `optimize_model` as opaque arguments exactly as in the source; a
  stepper is modelled as an abstract function `σ → P → σ × P` from optimizer
  state and registered parameters to updated state and parameters.
* Python exceptions are modelled with `Except`.
-/

namespace SAC

/-- Error raised by `ExpReplay.sample` (src/sac/main.py lines 63-67).
`insufficientData` models the `ValueError` raised by `random.sample` when the
requested batch is larger than the population (the spec's
`InsufficientDataError`); `unpackMismatch` models the `ValueError` raised when
unpacking `zip(*...)` of an empty sampled list into five variables. -/
inductive SampleError where
  | insufficientData : SampleError
  | unpackMismatch : SampleError
deriving DecidableEq, Repr

/-- A stored transition `(state, action, reward, next_state, done)`
(spec section 3; tuples built at src/sac/main.py line 220). -/
structure Transition (S A R D : Type) where
  state : S
  action : A
  reward : R
  next_state : S
  done : D
deriving DecidableEq, Repr

/-- The experience replay buffer (src/sac/main.py lines 37-70): five parallel
Python lists, a write pointer and the maximum length. -/
structure ExpReplay (S A R D : Type) where
  states : List S
  actions : List A
  rewards : List R
  next_states : List S
  dones : List D
  pointer : ℕ
  max_len : ℕ
deriving DecidableEq, Repr

/-- Model of `ExpReplay.__init__` (src/sac/main.py lines 38-45): empty lists, pointer 0.
The source sets `max_len` to the module constant `replay_buffer_size`; the
capacity is kept as a parameter here so that claims about arbitrary
capacities can be stated. -/
def ExpReplay.init (S A R D : Type) (cap : ℕ) : ExpReplay S A R D :=
  { states := [], actions := [], rewards := [], next_states := [], dones := [],
    pointer := 0, max_len := cap }

/-- Model of `ExpReplay.add` (src/sac/main.py lines 47-61).  While the lists are shorter
than `max_len`, a placeholder (`0` in Python, `default` here) is appended to
each list; then the slot at `pointer` of each list is overwritten with the new
transition, and the pointer advances by one modulo `max_len`. -/
def ExpReplay.add {S A R D : Type} [Inhabited S] [Inhabited A] [Inhabited R]
    [Inhabited D] (buf : ExpReplay S A R D) (e : Transition S A R D) :
    ExpReplay S A R D :=
  let buf :=
    if buf.states.length < buf.max_len then
      { buf with
        states := buf.states ++ [default]
        actions := buf.actions ++ [default]
        rewards := buf.rewards ++ [default]
        next_states := buf.next_states ++ [default]
        dones := buf.dones ++ [default] }
    else buf
  { buf with
    states := buf.states.set buf.pointer e.state
    actions := buf.actions.set buf.pointer e.action
    rewards := buf.rewards.set buf.pointer e.reward
    next_states := buf.next_states.set buf.pointer e.next_state
    dones := buf.dones.set buf.pointer e.done
    pointer := (buf.pointer + 1) % buf.max_len }

/-- Insert a whole sequence of transitions in order (iterated `add`). -/
def ExpReplay.addAll {S A R D : Type} [Inhabited S] [Inhabited A] [Inhabited R]
    [Inhabited D] (buf : ExpReplay S A R D) (ts : List (Transition S A R D)) :
    ExpReplay S A R D :=
  ts.foldl ExpReplay.add buf

/-- Model of `ExpReplay.__len__` (src/sac/main.py lines 69-70). -/
def ExpReplay.size {S A R D : Type} (buf : ExpReplay S A R D) : ℕ :=
  buf.states.length

/-- The population `list(zip(self.states, self.actions, self.rewards,
self.next_states, self.dones))` built inside `sample`
(src/sac/main.py line 65). -/
def ExpReplay.population {S A R D : Type} (buf : ExpReplay S A R D) :
    List (S × A × R × S × D) :=
  List.zipWith (fun s t => (s, t))
    buf.states
    (List.zipWith (fun a t => (a, t))
      buf.actions
      (List.zipWith (fun r t => (r, t))
        buf.rewards
        (List.zipWith (fun n d => (n, d)) buf.next_states buf.dones)))

/-- Unzip a list of 5-tuples into five lists: the semantics of
`zip(*sampled)` on a non-empty list of equal-arity tuples. -/
def unzip5 {S A R D : Type} (l : List (S × A × R × S × D)) :
    List S × List A × List R × List S × List D :=
  (l.map (fun t => t.1), l.map (fun t => t.2.1), l.map (fun t => t.2.2.1),
   l.map (fun t => t.2.2.2.1), l.map (fun t => t.2.2.2.2))

/-- Model of `ExpReplay.sample` (src/sac/main.py lines 63-67).
`random.sample(population, k)` is modelled by the explicit list `pick` of
chosen positions (the randomness): it raises `ValueError` when
`k > len(population)` (modelled by `insufficientData`), and otherwise returns
the elements at `k` distinct positions.  The five result lists are produced by
unpacking `zip(*sampled)`, which raises `ValueError` when the sampled list is
empty (modelled by `unpackMismatch`). -/
def ExpReplay.sample {S A R D : Type} [Inhabited S] [Inhabited A] [Inhabited R]
    [Inhabited D] (buf : ExpReplay S A R D) (batch_size : ℕ) (pick : List ℕ) :
    Except SampleError (List S × List A × List R × List S × List D) :=
  if batch_size ≤ buf.population.length then
    match pick.map (fun i => buf.population.getD i default) with
    | [] => .error .unpackMismatch
    | x :: xs => .ok (unzip5 (x :: xs))
  else
    .error .insufficientData

/-- Characterization of the output of `random.sample(population, k)`: a list
of `k` distinct valid positions into the population.  Every such list is a
possible output (sampling is uniform over them, with no ordering guarantee),
so claims quantify over all valid picks. -/
def ValidPick (n k : ℕ) (pick : List ℕ) : Prop :=
  pick.length = k ∧ pick.Nodup ∧ ∀ i ∈ pick, i < n

instance (n k : ℕ) (pick : List ℕ) : Decidable (ValidPick n k pick) := by
  unfold ValidPick; infer_instance

instance {S A R D : Type} [Inhabited S] [Inhabited A] [Inhabited R]
    [Inhabited D] : Inhabited (Transition S A R D) :=
  ⟨⟨default, default, default, default, default⟩⟩

/-- The index of the insertion that last wrote buffer slot `i`, out of `n`
insertions into a capacity-`C` ring buffer: the largest `k < n` with
`k % C = i`. -/
def lastWrite (n C i : ℕ) : ℕ := i + C * ((n - 1 - i) / C)

/-- The end-to-end scenario of spec section 8: seven distinct transitions
with increasing integer rewards 1..7. -/
def sevenTransitions : List (Transition ℕ ℕ ℕ Bool) :=
  (List.range 7).map (fun k => ⟨0, 0, k + 1, 0, false⟩)

/-- A capacity-5 buffer holding the seven transitions of the scenario. -/
def buf7 : ExpReplay ℕ ℕ ℕ Bool :=
  (ExpReplay.init ℕ ℕ ℕ Bool 5).addAll sevenTransitions

/-- A buffer holding a single transition (for the `batch_size = 0` sampling
counterexample). -/
def oneBuf : ExpReplay ℕ ℕ ℕ Bool :=
  (ExpReplay.init ℕ ℕ ℕ Bool 5).add ⟨0, 0, 1, 0, false⟩

/-- Well-formedness of a buffer: the five parallel lists have equal length
(true of every reachable buffer state). -/
def ExpReplay.Wf {S A R D : Type} (buf : ExpReplay S A R D) : Prop :=
  buf.actions.length = buf.states.length ∧
  buf.rewards.length = buf.states.length ∧
  buf.next_states.length = buf.states.length ∧
  buf.dones.length = buf.states.length

noncomputable section

/-! ## Configuration constants (src/sac/main.py lines 18-35) -/

/-- Model of `replay_buffer_size = 1e6` (src/sac/main.py line 21; the Python float is
used as a list-length bound, so it is a natural number here). -/
def replay_buffer_size : ℕ := 1000000

/-- Model of `train_batch_size = 256` (src/sac/main.py line 22). -/
def train_batch_size : ℕ := 256

/-- Model of `gamma = 0.99` (src/sac/main.py line 23). -/
def gamma : ℝ := 0.99

/-- Model of `target_smoothing_coeff = 0.005` (src/sac/main.py line 24). -/
def target_smoothing_coeff : ℝ := 0.005

/-- Model of `logstd_min = -20` (src/sac/main.py line 26). -/
def logstd_min : ℝ := -20

/-- Model of `logstd_max = 2` (src/sac/main.py line 27). -/
def logstd_max : ℝ := 2

/-- Model of `reward_scaling = 1` (src/sac/main.py line 28). -/
def reward_scaling : ℝ := 1

/-- Model of `entropy_coeff = -1e-10` (src/sac/main.py line 29). -/
def entropy_coeff : ℝ := -1e-10

/-! ## Dual numbers: the autograd model

A `Dual` value models one scalar node of the PyTorch computation graph: its
value and its directional derivative (tangent) along one fixed direction of
the graph inputs.  Detaching a tensor from the graph zeroes the tangent. -/

/-- A scalar carrying a value and a tangent. -/
structure Dual where
  val : ℝ
  grad : ℝ

instance : Add Dual := ⟨fun a b => ⟨a.val + b.val, a.grad + b.grad⟩⟩
instance : Sub Dual := ⟨fun a b => ⟨a.val - b.val, a.grad - b.grad⟩⟩
instance : Neg Dual := ⟨fun a => ⟨-a.val, -a.grad⟩⟩
instance : Mul Dual := ⟨fun a b => ⟨a.val * b.val, a.grad * b.val + a.val * b.grad⟩⟩
instance : Zero Dual := ⟨⟨0, 0⟩⟩
instance : One Dual := ⟨⟨1, 0⟩⟩

/-- A constant of the computation graph (no tangent). -/
def Dual.cst (x : ℝ) : Dual := ⟨x, 0⟩

/-- Division node, with the quotient-rule tangent. -/
def Dual.div (a b : Dual) : Dual :=
  ⟨a.val / b.val, (a.grad * b.val - a.val * b.grad) / (b.val * b.val)⟩

/-- Model of `x ** 2` node. -/
def Dual.sq (a : Dual) : Dual := a * a

/-- Model of `Tensor.detach()`: same value, removed from the graph (zero tangent). -/
def Dual.detach (a : Dual) : Dual := ⟨a.val, 0⟩

/-- Model of `torch.exp` node. -/
def Dual.exp (a : Dual) : Dual := ⟨Real.exp a.val, a.grad * Real.exp a.val⟩

/-- Model of `torch.log` node. -/
def Dual.log (a : Dual) : Dual := ⟨Real.log a.val, a.grad / a.val⟩

/-- Model of `F.relu` node; the subgradient at 0 is 0, as in PyTorch. -/
def Dual.relu (a : Dual) : Dual := ⟨max a.val 0, if 0 < a.val then a.grad else 0⟩

/-- Model of `torch.min` of two scalars: the smaller node is passed through (its
tangent with it); on ties the first argument is chosen. -/
def Dual.smin (a b : Dual) : Dual := if a.val ≤ b.val then a else b

/-- Model of `torch.mean` of the entries of a tensor, as a list of scalar nodes. -/
def Dual.mean (l : List Dual) : Dual :=
  ⟨(l.map Dual.val).sum / l.length, (l.map Dual.grad).sum / l.length⟩

/-- Lift a real vector into constant graph nodes. -/
def liftL (l : List ℝ) : List Dual := l.map Dual.cst

/-- Lift a real matrix into constant graph nodes. -/
def liftM (m : List (List ℝ)) : List (List Dual) := m.map liftL

@[simp] theorem Dual.val_add (a b : Dual) : (a + b).val = a.val + b.val := rfl
@[simp] theorem Dual.grad_add (a b : Dual) : (a + b).grad = a.grad + b.grad := rfl
@[simp] theorem Dual.val_sub (a b : Dual) : (a - b).val = a.val - b.val := rfl
@[simp] theorem Dual.grad_sub (a b : Dual) : (a - b).grad = a.grad - b.grad := rfl
@[simp] theorem Dual.val_neg (a : Dual) : (-a).val = -a.val := rfl
@[simp] theorem Dual.grad_neg (a : Dual) : (-a).grad = -a.grad := rfl
@[simp] theorem Dual.val_mul (a b : Dual) : (a * b).val = a.val * b.val := rfl
@[simp] theorem Dual.grad_mul (a b : Dual) :
    (a * b).grad = a.grad * b.val + a.val * b.grad := rfl
@[simp] theorem Dual.val_cst (x : ℝ) : (Dual.cst x).val = x := rfl
@[simp] theorem Dual.grad_cst (x : ℝ) : (Dual.cst x).grad = 0 := rfl
@[simp] theorem Dual.val_div (a b : Dual) : (a.div b).val = a.val / b.val := rfl
@[simp] theorem Dual.val_sq (a : Dual) : a.sq.val = a.val * a.val := rfl
@[simp] theorem Dual.grad_sq (a : Dual) :
    a.sq.grad = a.grad * a.val + a.val * a.grad := rfl
@[simp] theorem Dual.val_detach (a : Dual) : a.detach.val = a.val := rfl
@[simp] theorem Dual.grad_detach (a : Dual) : a.detach.grad = 0 := rfl
@[simp] theorem Dual.val_exp (a : Dual) : a.exp.val = Real.exp a.val := rfl
@[simp] theorem Dual.val_log (a : Dual) : a.log.val = Real.log a.val := rfl
@[simp] theorem Dual.val_relu (a : Dual) : a.relu.val = max a.val 0 := rfl
@[simp] theorem Dual.val_smin (a b : Dual) :
    (a.smin b).val = min a.val b.val := by
  by_cases h : a.val ≤ b.val <;> simp [Dual.smin, h, min_def]

@[simp] theorem Dual.val_mean (l : List Dual) :
    (Dual.mean l).val = (l.map Dual.val).sum / l.length := rfl
@[simp] theorem Dual.grad_mean (l : List Dual) :
    (Dual.mean l).grad = (l.map Dual.grad).sum / l.length := rfl

theorem Dual.detach_congr {a b : Dual} (h : a.val = b.val) :
    a.detach = b.detach := by simp [Dual.detach, h]

/-! ## Function approximators -/

/-- Model of `F.relu` on a plain real scalar. -/
def reluR (x : ℝ) : ℝ := max x 0

/-- Model of `torch.clamp(x, min=lo, max=hi)`. -/
def clampR (lo hi x : ℝ) : ℝ := min (max x lo) hi

/-- Dot product of a weight row with an input vector. -/
def dotR (w x : List ℝ) : ℝ := (List.zipWith (fun a b => a * b) w x).sum

/-- Model of `nn.Linear`: weight matrix (one row per output) and bias vector applied
to an input vector. -/
def linearR (W : List (List ℝ)) (b : List ℝ) (x : List ℝ) : List ℝ :=
  List.zipWith (fun row bi => dotR row x + bi) W b

/-- Dot product of a (constant) weight row with a vector of graph nodes; the
tangent is the weighted sum of the input tangents. -/
def dotD (w : List ℝ) (x : List Dual) : Dual :=
  ⟨dotR w (x.map Dual.val), dotR w (x.map Dual.grad)⟩

/-- Model of `nn.Linear` on graph nodes (weights and biases are graph constants). -/
def linearD (W : List (List ℝ)) (b : List ℝ) (x : List Dual) : List Dual :=
  List.zipWith (fun row bi => dotD row x + Dual.cst bi) W b

/-- Parameters of the `Actor` network (src/sac/main.py lines 73-83): two
hidden layers, a mean head, a log-std head, and the fixed action scale stored
at construction. -/
structure ActorParams where
  fc1W : List (List ℝ)
  fc1b : List ℝ
  fc2W : List (List ℝ)
  fc2b : List ℝ
  fc_meanW : List (List ℝ)
  fc_meanb : List ℝ
  fc_logstdW : List (List ℝ)
  fc_logstdb : List ℝ
  action_scale : List ℝ

/-- Model of `Actor.forward` (src/sac/main.py lines 85-92): two ReLU hidden layers,
then the mean head and the log-std head, the latter clamped to
`[logstd_min, logstd_max]`. -/
def Actor.forward (p : ActorParams) (x : List ℝ) : List ℝ × List ℝ :=
  let h1 := (linearR p.fc1W p.fc1b x).map reluR
  let h2 := (linearR p.fc2W p.fc2b h1).map reluR
  (linearR p.fc_meanW p.fc_meanb h2,
   (linearR p.fc_logstdW p.fc_logstdb h2).map (clampR logstd_min logstd_max))

/-- Model of `Actor.get_action` (src/sac/main.py lines 94-101): sample the Gaussian
`Normal(mean, exp(logstd))` (the draw is `mean + noise * exp(logstd)` for a
standard-normal `noise`, supplied explicitly), squash with `tanh`, and scale
elementwise by `action_scale`. -/
def Actor.get_action (p : ActorParams) (state : List ℝ) (noise : List ℝ) :
    List ℝ :=
  let ms := Actor.forward p state
  List.zipWith (fun a c => a * c)
    (List.zipWith3 (fun m ls e => Real.tanh (m + e * Real.exp ls))
      ms.1 ms.2 noise)
    p.action_scale

/-- The deterministic evaluation action (src/sac/main.py lines 172-175):
`tanh(mean) * env.action_space.high` with no sampling; `high` is the
environment's action bound vector. -/
def evalAction (p : ActorParams) (high : List ℝ) (state : List ℝ) : List ℝ :=
  List.zipWith (fun m h => Real.tanh m * h) (Actor.forward p state).1 high

/-- Parameters of a `QNet` critic (src/sac/main.py lines 104-110); `fc3` has
output dimension 1, so it is a single weight row and a scalar bias. -/
structure QParams where
  fc1W : List (List ℝ)
  fc1b : List ℝ
  fc2W : List (List ℝ)
  fc2b : List ℝ
  fc3w : List ℝ
  fc3b : ℝ

/-- Model of `QNet.forward` (src/sac/main.py lines 112-116) on graph nodes: a hidden
representation of the state is concatenated with the action before the second
hidden layer, then projected to a scalar. -/
def QNet.forward (p : QParams) (s a : List Dual) : Dual :=
  let h1 := (linearD p.fc1W p.fc1b s).map Dual.relu
  let h2 := (linearD p.fc2W p.fc2b (h1 ++ a)).map Dual.relu
  dotD p.fc3w h2 + Dual.cst p.fc3b

/-- The plain real value `Q(s, a)` of a critic. -/
def QNet.apply (p : QParams) (s a : List ℝ) : ℝ :=
  (QNet.forward p (liftL s) (liftL a)).val

/-- Parameters of `VNet`.  Modelled from the spec: `VNet` is imported from
`sac.networks` (src/sac/main.py line 15), a module that is not among the
repository sources; spec section 4.3 describes it as having the same trunk
shape as the critics minus the action input, with a scalar output. -/
structure VParams where
  fc1W : List (List ℝ)
  fc1b : List ℝ
  fc2W : List (List ℝ)
  fc2b : List ℝ
  fc3w : List ℝ
  fc3b : ℝ

/-- Modelled from the spec: the forward pass of `VNet` (spec section 4.3),
two ReLU hidden layers followed by a scalar projection; the source module
`sac.networks` is missing from the repository. -/
def VNet.forward (p : VParams) (s : List ℝ) : ℝ :=
  let h1 := (linearR p.fc1W p.fc1b s).map reluR
  let h2 := (linearR p.fc2W p.fc2b h1).map reluR
  dotR p.fc3w h2 + p.fc3b

/-! ## The loss pipeline of `optimize_model` (src/sac/main.py lines 131-160) -/

/-- Model of `torch.distributions.Normal(loc, scale).log_prob(x)`: the library formula
`-((x - loc)**2) / (2 * scale**2) - log(scale) - log(sqrt(2*pi))`, as one
graph node per tensor entry. -/
def normalLogProbD (μ σ x : Dual) : Dual :=
  -((x - μ).sq.div (Dual.cst 2 * σ.sq)) - σ.log -
    Dual.cst (Real.log (Real.sqrt (2 * Real.pi)))

/-- The same log-density formula on plain reals: the log of the Gaussian
density with mean `μ` and standard deviation `σ` at `x`. -/
def normalLogPdf (μ σ x : ℝ) : ℝ :=
  -((x - μ) ^ 2 / (2 * σ ^ 2)) - Real.log σ - Real.log (Real.sqrt (2 * Real.pi))

/-- The Gaussian probability density function with mean `μ` and standard
deviation `σ`. -/
def gaussPdf (μ σ x : ℝ) : ℝ :=
  (σ * Real.sqrt (2 * Real.pi))⁻¹ * Real.exp (-((x - μ) ^ 2 / (2 * σ ^ 2)))

/-- Line 136: `pi_action_stds = torch.exp(pi_action_logstd)`. -/
def stdsD (logstds : List (List Dual)) : List (List Dual) :=
  logstds.map (List.map Dual.exp)

/-- Lines 138-139: `newly_sampled_actions = pi_action_means + z*pi_action_stds`
with `z` drawn from a standard normal (the draw is an explicit input). -/
def newlySampledActionsD (means stds : List (List Dual)) (z : List (List ℝ)) :
    List (List Dual) :=
  List.zipWith3
    (fun mrow srow zrow =>
      List.zipWith3 (fun m s zi => m + Dual.cst zi * s) mrow srow zrow)
    means stds z

/-- Line 140: elementwise `Normal(means, stds).log_prob(newly_sampled_actions)`
— one log-density per action dimension, not summed across dimensions. -/
def logProbsD (means stds acts : List (List Dual)) : List (List Dual) :=
  List.zipWith3
    (fun mrow srow arow => List.zipWith3 normalLogProbD mrow srow arow)
    means stds acts

/-- Lines 141-143: evaluate both critics at the newly sampled actions and take
the elementwise minimum. -/
def qMinD (q1 q2 : QParams) (states acts : List (List Dual)) : List Dual :=
  List.zipWith (fun s a => (QNet.forward q1 s a).smin (QNet.forward q2 s a))
    states acts

/-- Line 145: the value loss
`mean((V - (Qmin.detach() - entropy_coeff * logprobs.detach()))**2)`.
`V` and `Qmin` have one entry per sample while `logprobs` has one entry per
sample and action dimension, so the difference broadcasts to a
(batch, action-dim) tensor whose entries are all averaged. -/
def valueLossD (V Qmin : List Dual) (lp : List (List Dual)) : Dual :=
  Dual.mean (List.flatten (List.zipWith3
    (fun v q row =>
      row.map (fun l => (v - (q.detach - Dual.cst entropy_coeff * l.detach)).sq))
    V Qmin lp))

/-- Line 150 (and identically line 151): the critic regression target
`rewards + gamma * V_target(next_states) * (1 - dones)`. -/
def criticTargetD (r vNext d : Dual) : Dual :=
  r + Dual.cst gamma * vNext * (Dual.cst 1 - d)

/-- Mean squared error between per-sample predictions and targets. -/
def mseD (q y : List Dual) : Dual :=
  Dual.mean (List.zipWith (fun a b => (a - b).sq) q y)

/-- Lines 150-152: `J_q = J_q1 + J_q2`, the sum of the two critics' mean
squared errors against the (identically written) regression target. -/
def criticLossD (Q1 Q2 ys : List Dual) : Dual := mseD Q1 ys + mseD Q2 ys

/-- Line 157: the policy loss
`mean(entropy_coeff * logprobs - Qmin)`, in which `Qmin` is NOT detached;
again the (batch, action-dim) log-probability tensor broadcasts against the
per-sample `Qmin`. -/
def piLossD (lp : List (List Dual)) (Qmin : List Dual) : Dual :=
  Dual.mean (List.flatten (List.zipWith
    (fun q row => row.map (fun l => Dual.cst entropy_coeff * l - q)) Qmin lp))

/-! ## Training state, optimization step and training-loop body -/

/-- Everything mutated by one step of the training loop: the five networks,
the replay memory, and the three optimizers' internal states (of abstract
types, since `torch.optim.Adam` is an external collaborator). -/
structure TrainState (σa σq σv : Type) where
  policy : ActorParams
  q1 : QParams
  q2 : QParams
  v : VParams
  vTarget : VParams
  memory : ExpReplay (List ℝ) (List ℝ) ℝ Bool
  optA : σa
  optQ : σq
  optV : σv

/-- Model of `optimize_model` (src/sac/main.py lines 120-161).  The optimizer objects
are passed in exactly as in the source: `stepA`, `stepQ` and `stepV` model
`actor_optimizer`, `q_net_optimizer` and `v_net_optimizer`; each maps its
internal state and its registered parameters (the actor's, BOTH critics' as
one group — line 204 — and the value network's) to their updated versions.
`pick` is the randomness of `memory.sample`, `z` the standard-normal draw of
line 138.  All forward quantities are computed from the state at entry, before
any optimizer step, exactly as in the source, where every tensor of lines
131-143 is materialized before the first `backward()`. -/
def optimize_model {σa σq σv : Type}
    (stepA : σa → ActorParams → σa × ActorParams)
    (stepQ : σq → QParams × QParams → σq × (QParams × QParams))
    (stepV : σv → VParams → σv × VParams)
    (st : TrainState σa σq σv) (pick : List ℕ) (z : List (List ℝ)) :
    Except SampleError ((ℝ × ℝ × ℝ) × TrainState σa σq σv) :=
  if st.memory.size < train_batch_size then
    .ok ((0, 0, 0), st)
  else
    match st.memory.sample train_batch_size pick with
    | .error e => .error e
    | .ok (st_b, ac_b, rew_b, nst_b, dn_b) =>
      let dones : List ℝ := dn_b.map (fun d => if d then 1 else 0)
      let Q1_vals : List Dual :=
        List.zipWith (fun s a => QNet.forward st.q1 (liftL s) (liftL a)) st_b ac_b
      let Q2_vals : List Dual :=
        List.zipWith (fun s a => QNet.forward st.q2 (liftL s) (liftL a)) st_b ac_b
      let V_vals : List Dual := st_b.map (fun s => Dual.cst (VNet.forward st.v s))
      let V_next : List Dual :=
        nst_b.map (fun s => Dual.cst (VNet.forward st.vTarget s))
      let mls := st_b.map (Actor.forward st.policy)
      let means := liftM (mls.map Prod.fst)
      let logstds := liftM (mls.map Prod.snd)
      let stds := stdsD logstds
      let acts := newlySampledActionsD means stds z
      let lps := logProbsD means stds acts
      let Qmin := qMinD st.q1 st.q2 (liftM st_b) acts
      let J_v := valueLossD V_vals Qmin lps
      let vres := stepV st.optV st.v
      let ys := List.zipWith3
        (fun r vn d => criticTargetD (Dual.cst r) vn (Dual.cst d)) rew_b V_next dones
      let J_q := criticLossD Q1_vals Q2_vals ys
      let qres := stepQ st.optQ (st.q1, st.q2)
      let J_pi := piLossD lps Qmin
      let ares := stepA st.optA st.policy
      .ok ((J_v.val, J_q.val, J_pi.val),
        { st with v := vres.2, optV := vres.1,
                  q1 := qres.2.1, q2 := qres.2.2, optQ := qres.1,
                  policy := ares.2, optA := ares.1 })

/-- One application of the target-smoothing rule of src/sac/main.py line 227,
`t_par.data = par.data * coeff + t_par.data * (1 - coeff)`, elementwise on a
parameter vector. -/
def smoothVec (τ : ℝ) (src tgt : List ℝ) : List ℝ :=
  List.zipWith (fun p t => p * τ + t * (1 - τ)) src tgt

/-- The same rule on a weight matrix. -/
def smoothMat (τ : ℝ) (src tgt : List (List ℝ)) : List (List ℝ) :=
  List.zipWith (smoothVec τ) src tgt

/-- Lines 226-227: the smoothing rule applied to every parameter tensor of the
value network / target pair. -/
def smoothV (τ : ℝ) (src tgt : VParams) : VParams :=
  { fc1W := smoothMat τ src.fc1W tgt.fc1W
    fc1b := smoothVec τ src.fc1b tgt.fc1b
    fc2W := smoothMat τ src.fc2W tgt.fc2W
    fc2b := smoothVec τ src.fc2b tgt.fc2b
    fc3w := smoothVec τ src.fc3w tgt.fc3w
    fc3b := src.fc3b * τ + tgt.fc3b * (1 - τ) }

/-- The data the environment and the samplers feed into one iteration of the
inner training loop (spec sections 4.6 and 6): the current observation, the
exploration noise, the environment's `step` result, and the randomness used
by `optimize_model`. -/
structure EnvFeedback where
  state : List ℝ
  actionNoise : List ℝ
  next_state : List ℝ
  reward : ℝ
  done : Bool
  pick : List ℕ
  z : List (List ℝ)

/-- The body of the inner training loop (src/sac/main.py lines 214-229):
choose the stochastic action, store the (reward-scaled) transition, run one
optimization step, and then — once per environment step, immediately after
the optimization step — apply the target-smoothing rule. -/
def trainStepBody {σa σq σv : Type}
    (stepA : σa → ActorParams → σa × ActorParams)
    (stepQ : σq → QParams × QParams → σq × (QParams × QParams))
    (stepV : σv → VParams → σv × VParams)
    (st : TrainState σa σq σv) (f : EnvFeedback) :
    Except SampleError ((ℝ × ℝ × ℝ) × TrainState σa σq σv) :=
  let action := Actor.get_action st.policy f.state f.actionNoise
  let exp_tuple : Transition (List ℝ) (List ℝ) ℝ Bool :=
    ⟨f.state, action, reward_scaling * f.reward, f.next_state, f.done⟩
  let st1 := { st with memory := st.memory.add exp_tuple }
  match optimize_model stepA stepQ stepV st1 f.pick f.z with
  | .error e => .error e
  | .ok (losses, st2) =>
    .ok (losses,
      { st2 with vTarget := smoothV target_smoothing_coeff st2.v st2.vTarget })

/-- Construction of the training state (src/sac/main.py lines 195-206): the
freshly initialized networks and optimizer states are supplied (weight
initialization is the library's), `v_target_net` is loaded with an exact copy
of `v_net`'s parameters (line 201), and the replay memory starts empty with
capacity `replay_buffer_size`. -/
def initTrainState {σa σq σv : Type} (policy0 : ActorParams) (q10 q20 : QParams)
    (v0 : VParams) (a0 : σa) (q0 : σq) (vo0 : σv) : TrainState σa σq σv :=
  { policy := policy0, q1 := q10, q2 := q20, v := v0, vTarget := v0,
    memory := ExpReplay.init (List ℝ) (List ℝ) ℝ Bool replay_buffer_size,
    optA := a0, optQ := q0, optV := vo0 }

/-- The scalar exponential-moving-average recurrence
`t ← p * τ + t * (1 - τ)` folded over a sequence of source snapshots. -/
def emaIter (τ t0 : ℝ) (ps : List ℝ) : ℝ :=
  ps.foldl (fun t p => p * τ + t * (1 - τ)) t0

/-- The smoothing rule folded over a sequence of source parameter vectors. -/
def foldSmoothVec (τ : ℝ) (t0 : List ℝ) (srcs : List (List ℝ)) : List ℝ :=
  srcs.foldl (fun t p => smoothVec τ p t) t0

/-! ## Plain-real formulas for the loss values

These spell out, on plain reals, the values computed by the dual-number
pipeline above; the claims' loss formulas are stated with them. -/

/-- Model of `torch.mean` of a flat list of reals. -/
def meanR (l : List ℝ) : ℝ := l.sum / l.length

/-- The real value of `QNet.forward` (src/sac/main.py lines 112-116). -/
def QNet.applyR (p : QParams) (s a : List ℝ) : ℝ :=
  let h1 := (linearR p.fc1W p.fc1b s).map reluR
  let h2 := (linearR p.fc2W p.fc2b (h1 ++ a)).map reluR
  dotR p.fc3w h2 + p.fc3b

/-- The per-sample mean vectors produced by the actor on a batch of states. -/
def actorMeans (p : ActorParams) (states : List (List ℝ)) : List (List ℝ) :=
  states.map (fun s => (Actor.forward p s).1)

/-- The per-sample standard-deviation vectors `exp(logstd)` produced by the
actor on a batch of states. -/
def actorStds (p : ActorParams) (states : List (List ℝ)) : List (List ℝ) :=
  states.map (fun s => ((Actor.forward p s).2).map Real.exp)

/-- The newly sampled actions `mean + z * std` on plain reals. -/
def sampledActionsR (p : ActorParams) (states z : List (List ℝ)) :
    List (List ℝ) :=
  List.zipWith3
    (fun mrow srow zrow =>
      List.zipWith3 (fun m s zi => m + zi * s) mrow srow zrow)
    (actorMeans p states) (actorStds p states) z

/-- The per-dimension Gaussian log-densities of the newly sampled actions on
plain reals. -/
def logProbsR (p : ActorParams) (states z : List (List ℝ)) :
    List (List ℝ) :=
  List.zipWith3
    (fun mrow srow arow => List.zipWith3 normalLogPdf mrow srow arow)
    (actorMeans p states) (actorStds p states) (sampledActionsR p states z)

/-- The elementwise minimum of the two critics at the newly sampled actions
on plain reals. -/
def qMinR (q1 q2 : QParams) (states acts : List (List ℝ)) : List ℝ :=
  List.zipWith (fun s a => min (QNet.applyR q1 s a) (QNet.applyR q2 s a))
    states acts

/-- The critic regression targets `r + gamma * (1 - done) * V_target(s')` on
plain reals (`done` already converted to 0/1). -/
def criticTargetsR (vt : VParams) (rew : List ℝ) (nst : List (List ℝ))
    (dn : List ℝ) : List ℝ :=
  List.zipWith3 (fun r s' d => r + gamma * (1 - d) * VNet.forward vt s')
    rew nst dn

/-- Mean squared error on plain reals. -/
def mseR (q y : List ℝ) : ℝ := meanR (List.zipWith (fun a b => (a - b) ^ 2) q y)

/-- The value-loss value on plain reals: the (batch, action-dim) broadcast of
`V - (Qmin - entropy_coeff * logprob)`, squared, averaged over all entries. -/
def valueLossR (V Qmin : List ℝ) (lp : List (List ℝ)) : ℝ :=
  meanR (List.flatten (List.zipWith3
    (fun v q row => row.map (fun l => (v - (q - entropy_coeff * l)) ^ 2))
    V Qmin lp))

/-- The policy-loss value on plain reals: the (batch, action-dim) broadcast of
`entropy_coeff * logprob - Qmin`, averaged over all entries. -/
def piLossR (lp : List (List ℝ)) (Qmin : List ℝ) : ℝ :=
  meanR (List.flatten (List.zipWith
    (fun q row => row.map (fun l => entropy_coeff * l - q)) Qmin lp))

/-! ## A concrete one-sample, one-dimension instance of the policy-loss
pipeline, used to exhibit gradient flow through the sampled action. -/

/-- A critic computing `Q(s, a) = relu(a)`: the state trunk is zeroed and the
action passes straight through. -/
def tinyQ1 : QParams := ⟨[[0]], [0], [[0, 1]], [0], [1], 0⟩

/-- The same critic with output bias 1, so `Q(s, a) = relu(a) + 1` dominates
`tinyQ1` and the minimum always selects `tinyQ1`. -/
def tinyQ2 : QParams := ⟨[[0]], [0], [[0, 1]], [0], [1], 1⟩

/-- The policy-loss pipeline of src/sac/main.py lines 136-143 and 157 on a
single sample with a single action dimension, with the critic pair
`tinyQ1`/`tinyQ2`, state `0`, log-std output `0` (tangent 0), standard-normal
draw `z = 1`, and the actor's mean output supplied as the one graph input. -/
def flowPipe (mean : Dual) : Dual :=
  piLossD
    (logProbsD [[mean]] (stdsD [[Dual.cst 0]])
      (newlySampledActionsD [[mean]] (stdsD [[Dual.cst 0]]) [[1]]))
    (qMinD tinyQ1 tinyQ2 [[Dual.cst 0]]
      (newlySampledActionsD [[mean]] (stdsD [[Dual.cst 0]]) [[1]]))

/-! ## Small concrete objects used by the witness theorems -/

/-- An actor whose layers are all empty. -/
def zeroActor : ActorParams := ⟨[], [], [], [], [], [], [], [], []⟩

/-- A critic whose layers are all empty. -/
def zeroQ : QParams := ⟨[], [], [], [], [], 0⟩

/-- A value network whose layers are all empty. -/
def zeroV : VParams := ⟨[], [], [], [], [], 0⟩

/-- An optimizer stepper that leaves its parameters unchanged. -/
def idStepA : Unit → ActorParams → Unit × ActorParams := fun s p => (s, p)

/-- An optimizer stepper that leaves its parameters unchanged. -/
def idStepQ : Unit → QParams × QParams → Unit × (QParams × QParams) :=
  fun s p => (s, p)

/-- An optimizer stepper that leaves its parameters unchanged. -/
def idStepV : Unit → VParams → Unit × VParams := fun s p => (s, p)

/-- A freshly constructed training state over the zero networks. -/
def tinyState : TrainState Unit Unit Unit :=
  initTrainState zeroActor zeroQ zeroQ zeroV () () ()

/-- Environment feedback with empty observations and zero reward. -/
def tinyFeedback : EnvFeedback := ⟨[], [], [], 0, false, [], []⟩

/-- A replay memory filled with `train_batch_size` copies of the trivial
transition. -/
def fullMemory : ExpReplay (List ℝ) (List ℝ) ℝ Bool :=
  (ExpReplay.init (List ℝ) (List ℝ) ℝ Bool replay_buffer_size).addAll
    (List.replicate 256 (Transition.mk [] [] 0 [] false))

/-- A training state over the zero networks whose memory holds a full batch. -/
def fullState : TrainState Unit Unit Unit :=
  { policy := zeroActor, q1 := zeroQ, q2 := zeroQ, v := zeroV, vTarget := zeroV,
    memory := fullMemory, optA := (), optQ := (), optV := () }

end

/-! # Helper lemmas -/

theorem map_zipWith3 {α β γ δ ε : Type} (g : δ → ε) (f : α → β → γ → δ)
    (l1 : List α) (l2 : List β) (l3 : List γ) :
    (List.zipWith3 f l1 l2 l3).map g =
      List.zipWith3 (fun a b c => g (f a b c)) l1 l2 l3 := by
  induction l1 generalizing l2 l3 with
  | nil => simp [List.zipWith3]
  | cons x xs ih =>
    cases l2 with
    | nil => simp [List.zipWith3]
    | cons y ys =>
      cases l3 with
      | nil => simp [List.zipWith3]
      | cons z zs => simp [List.zipWith3, ih]

theorem zipWith3_congr {α β γ δ : Type} {f g : α → β → γ → δ}
    (h : ∀ a b c, f a b c = g a b c) (l1 : List α) (l2 : List β) (l3 : List γ) :
    List.zipWith3 f l1 l2 l3 = List.zipWith3 g l1 l2 l3 := by
  induction l1 generalizing l2 l3 with
  | nil => simp [List.zipWith3]
  | cons x xs ih =>
    cases l2 with
    | nil => simp [List.zipWith3]
    | cons y ys =>
      cases l3 with
      | nil => simp [List.zipWith3]
      | cons z zs => simp [List.zipWith3, ih, h]

theorem zero_noise_tanh (ms ls : List ℝ) (h : ls.length = ms.length) :
    List.zipWith3 (fun m l e => Real.tanh (m + e * Real.exp l)) ms ls
      (List.replicate ms.length 0) = ms.map Real.tanh := by
  induction ms generalizing ls with
  | nil => simp [List.zipWith3]
  | cons m ms ih =>
    cases ls with
    | nil => simp at h
    | cons l ls2 =>
      simp only [List.length_cons, List.replicate_succ, List.zipWith3,
        List.map_cons]
      rw [ih ls2 (by simpa using h)]
      norm_num

theorem abs_tanh_le_one (x : ℝ) : |Real.tanh x| ≤ 1 := by
  rw [Real.tanh_eq_sinh_div_cosh, abs_div, abs_of_pos (Real.cosh_pos x),
    div_le_one (Real.cosh_pos x), abs_le]
  constructor
  · have h := Real.sinh_lt_cosh (-x)
    rw [Real.sinh_neg, Real.cosh_neg] at h
    linarith
  · exact le_of_lt (Real.sinh_lt_cosh x)

theorem tanh_image_zipWith3 (a b c : List ℝ) :
    ∀ y ∈ List.zipWith3 (fun m l e => Real.tanh (m + e * Real.exp l)) a b c,
      ∃ x, y = Real.tanh x := by
  induction a generalizing b c with
  | nil => simp [List.zipWith3]
  | cons m ms ih =>
    cases b with
    | nil => simp [List.zipWith3]
    | cons l ls =>
      cases c with
      | nil => simp [List.zipWith3]
      | cons e es =>
        intro y hy
        simp only [List.zipWith3, List.mem_cons] at hy
        rcases hy with hy | hy
        · exact ⟨m + e * Real.exp l, hy⟩
        · exact ih ls es y hy

theorem set_append_singleton {α : Type} (l : List α) (d x : α) :
    (l ++ [d]).set l.length x = l ++ [x] := by
  induction l with
  | nil => rfl
  | cons a t ih => simp [List.set, ih]

theorem lastWrite_lt (n C i : ℕ) (hC : 0 < C) (hi : i < min n C) :
    lastWrite n C i < n := by
  have h1 : C * ((n - 1 - i) / C) ≤ n - 1 - i := by
    rw [mul_comm]; exact Nat.div_mul_le_self _ _
  have h2 : i < n := lt_of_lt_of_le hi (min_le_left _ _)
  unfold lastWrite
  omega

theorem lastWrite_small (n C i : ℕ) (hin : i < n) (hn : n ≤ C) :
    lastWrite n C i = i := by
  unfold lastWrite
  rw [Nat.div_eq_of_lt (by omega), Nat.mul_zero, Nat.add_zero]

theorem lastWrite_succ_pointer (n C : ℕ) (hC : 0 < C) :
    lastWrite (n + 1) C (n % C) = n := by
  unfold lastWrite
  have h1 : n + 1 - 1 - n % C = C * (n / C) := by
    have := Nat.div_add_mod n C
    omega
  rw [h1, Nat.mul_div_cancel_left _ hC]
  have := Nat.div_add_mod n C
  omega

theorem lastWrite_succ_ne (n C i : ℕ) (hC : 0 < C) (hiC : i < C) (hin : i < n)
    (hne : i ≠ n % C) : lastWrite (n + 1) C i = lastWrite n C i := by
  unfold lastWrite
  have h1 : n + 1 - 1 - i = (n - 1 - i) + 1 := by omega
  rw [h1, Nat.succ_div]
  have hnd : ¬ C ∣ (n - 1 - i) + 1 := by
    intro hdvd
    obtain ⟨m, hm⟩ := hdvd
    have hn2 : n = i + C * m := by omega
    have : n % C = i := by
      rw [hn2, Nat.add_mul_mod_self_left, Nat.mod_eq_of_lt hiC]
    exact hne this.symm
  simp [hnd]

theorem lastWrite_pointer (n C : ℕ) (hC : 0 < C) (h : C ≤ n) :
    lastWrite n C (n % C) = n - C := by
  unfold lastWrite
  have hd : 1 ≤ n / C := (Nat.one_le_div_iff hC).2 h
  have hdm := Nat.div_add_mod n C
  have hmod := Nat.mod_lt n hC
  have hmul : C * (n / C - 1) + C = C * (n / C) := by
    rw [← Nat.mul_succ]
    congr 1
    omega
  have h1 : n - 1 - n % C = C * (n / C - 1) + (C - 1) := by omega
  rw [h1, Nat.mul_add_div hC, Nat.div_eq_of_lt (show C - 1 < C by omega),
    Nat.add_zero]
  omega

theorem lastWrite_ge (n C i : ℕ) (hC : 0 < C) (h : C ≤ n) (hi : i < C) :
    n - C ≤ lastWrite n C i := by
  unfold lastWrite
  have hdm := Nat.div_add_mod (n - 1 - i) C
  have hlt := Nat.mod_lt (n - 1 - i) hC
  omega

theorem ringStep_getD {α : Type} [Inhabited α] (C n i : ℕ) (hC : 0 < C)
    (cond : Prop) [Decidable cond] (hcond : cond ↔ n < C)
    (l : List α) (old : ℕ → α) (x : α)
    (hlen : l.length = min n C)
    (hchar : ∀ j, j < min n C → l.getD j default = old (lastWrite n C j))
    (hi : i < min (n + 1) C) :
    ((if cond then l ++ [default] else l).set (n % C) x).getD i default
      = if lastWrite (n + 1) C i = n then x else old (lastWrite (n + 1) C i) := by
  by_cases hn : n < C
  · have hptr : n % C = n := Nat.mod_eq_of_lt hn
    have hln : l.length = n := by omega
    have hset : ((l ++ [default]).set (n % C) x) = l ++ [x] := by
      rw [hptr, ← hln, set_append_singleton]
    rw [if_pos (hcond.2 hn), hset]
    by_cases hin : i = n
    · rw [hin]
      have hlw : lastWrite (n + 1) C n = n :=
        lastWrite_small _ _ _ (by omega) (by omega)
      rw [List.getD_append_right l [x] default n (by omega), hlw, if_pos rfl,
        hln]
      simp
    · have hilt : i < n := by omega
      have h1 : lastWrite (n + 1) C i = i :=
        lastWrite_small _ _ _ (by omega) (by omega)
      have h2 : lastWrite n C i = i := lastWrite_small _ _ _ hilt (by omega)
      rw [List.getD_append l [x] default i (by omega), h1, if_neg (by omega)]
      have := hchar i (by omega)
      rw [h2] at this
      exact this
  · have hln : l.length = C := by omega
    rw [if_neg (fun hc => hn (hcond.1 hc))]
    have hiC : i < C := by omega
    by_cases hieq : i = n % C
    · rw [hieq,
        List.getD_eq_getElem _ _
          (by rw [List.length_set, hln]; exact Nat.mod_lt _ hC),
        List.getElem_set_self, lastWrite_succ_pointer n C hC, if_pos rfl]
    · have hset : (l.set (n % C) x).getD i default = l.getD i default := by
        rw [List.getD_eq_getElem?_getD, List.getD_eq_getElem?_getD,
          List.getElem?_set_ne (fun h => hieq h.symm)]
      rw [hset]
      have h1 : lastWrite (n + 1) C i = lastWrite n C i :=
        lastWrite_succ_ne n C i hC hiC (by omega) hieq
      have h2 : lastWrite (n + 1) C i ≠ n := by
        intro h
        have hmm : lastWrite (n + 1) C i % C = i := by
          unfold lastWrite
          rw [Nat.add_mul_mod_self_left, Nat.mod_eq_of_lt hiC]
        rw [h] at hmm
        exact hieq hmm.symm
      rw [if_neg h2, h1]
      exact hchar i (by omega)

theorem ringStep_length {α : Type} [Inhabited α] (C n : ℕ) (hC : 0 < C)
    (cond : Prop) [Decidable cond] (hcond : cond ↔ n < C)
    (l : List α) (x : α) (hlen : l.length = min n C) :
    ((if cond then l ++ [default] else l).set (n % C) x).length
      = min (n + 1) C := by
  by_cases hn : n < C
  · rw [if_pos (hcond.2 hn)]
    simp only [List.length_set, List.length_append, List.length_singleton]
    omega
  · rw [if_neg (fun hc => hn (hcond.1 hc))]
    simp only [List.length_set]
    omega

theorem add_fields {S A R D : Type} [Inhabited S] [Inhabited A] [Inhabited R]
    [Inhabited D] (B : ExpReplay S A R D) (t : Transition S A R D) :
    (B.add t).states =
      (if B.states.length < B.max_len then B.states ++ [default]
        else B.states).set B.pointer t.state ∧
    (B.add t).actions =
      (if B.states.length < B.max_len then B.actions ++ [default]
        else B.actions).set B.pointer t.action ∧
    (B.add t).rewards =
      (if B.states.length < B.max_len then B.rewards ++ [default]
        else B.rewards).set B.pointer t.reward ∧
    (B.add t).next_states =
      (if B.states.length < B.max_len then B.next_states ++ [default]
        else B.next_states).set B.pointer t.next_state ∧
    (B.add t).dones =
      (if B.states.length < B.max_len then B.dones ++ [default]
        else B.dones).set B.pointer t.done ∧
    (B.add t).pointer = (B.pointer + 1) % B.max_len ∧
    (B.add t).max_len = B.max_len := by
  unfold ExpReplay.add
  by_cases h : B.states.length < B.max_len <;> simp [h]

theorem addAll_char {S A R D : Type} [Inhabited S] [Inhabited A] [Inhabited R]
    [Inhabited D] (C : ℕ) (hC : 0 < C) (ts : List (Transition S A R D)) :
    ((ExpReplay.init S A R D C).addAll ts).max_len = C ∧
    ((ExpReplay.init S A R D C).addAll ts).pointer = ts.length % C ∧
    ((ExpReplay.init S A R D C).addAll ts).states.length = min ts.length C ∧
    ((ExpReplay.init S A R D C).addAll ts).actions.length = min ts.length C ∧
    ((ExpReplay.init S A R D C).addAll ts).rewards.length = min ts.length C ∧
    ((ExpReplay.init S A R D C).addAll ts).next_states.length
      = min ts.length C ∧
    ((ExpReplay.init S A R D C).addAll ts).dones.length = min ts.length C ∧
    (∀ i, i < min ts.length C →
      ((ExpReplay.init S A R D C).addAll ts).states.getD i default =
        (ts.getD (lastWrite ts.length C i) default).state ∧
      ((ExpReplay.init S A R D C).addAll ts).actions.getD i default =
        (ts.getD (lastWrite ts.length C i) default).action ∧
      ((ExpReplay.init S A R D C).addAll ts).rewards.getD i default =
        (ts.getD (lastWrite ts.length C i) default).reward ∧
      ((ExpReplay.init S A R D C).addAll ts).next_states.getD i default =
        (ts.getD (lastWrite ts.length C i) default).next_state ∧
      ((ExpReplay.init S A R D C).addAll ts).dones.getD i default =
        (ts.getD (lastWrite ts.length C i) default).done) := by
  induction ts using List.reverseRecOn with
  | nil => simp [ExpReplay.addAll, ExpReplay.init]
  | append_singleton ts t ih =>
    have hstep : (ExpReplay.init S A R D C).addAll (ts ++ [t]) =
        ((ExpReplay.init S A R D C).addAll ts).add t := by
      simp [ExpReplay.addAll]
    obtain ⟨hml, hptr, hls, hla, hlr, hln2, hld, hchar⟩ := ih
    set B := (ExpReplay.init S A R D C).addAll ts with hB
    obtain ⟨fs, fa, fr, fn, fd, fp, fm⟩ := add_fields B t
    have hcnd : (B.states.length < C) ↔ ts.length < C := by
      rw [hls]; omega
    have hlen1 : (ts ++ [t]).length = ts.length + 1 := by simp
    have key : ∀ {α : Type} [Inhabited α] (l : List α)
        (f : Transition S A R D → α) (i : ℕ),
        i < min (ts.length + 1) C →
        l.length = min ts.length C →
        (∀ j, j < min ts.length C →
          l.getD j default = f (ts.getD (lastWrite ts.length C j) default)) →
        ((if B.states.length < B.max_len then l ++ [default] else l).set
            B.pointer (f t)).getD i default
          = f ((ts ++ [t]).getD (lastWrite (ts.length + 1) C i) default) := by
      intro α inst l f i hi hl hc
      rw [hml, hptr]
      rw [ringStep_getD C ts.length i hC _ hcnd l
        (fun j2 => f (ts.getD j2 default)) (f t) hl hc hi]
      by_cases hw : lastWrite (ts.length + 1) C i = ts.length
      · rw [if_pos hw, hw,
          List.getD_append_right ts [t] default ts.length (le_refl _),
          Nat.sub_self]
        simp
      · rw [if_neg hw]
        have hlt : lastWrite (ts.length + 1) C i < ts.length + 1 :=
          lastWrite_lt _ _ _ hC hi
        rw [List.getD_append ts [t] default _ (by omega)]
    rw [hstep, hlen1]
    refine ⟨by rw [fm, hml], ?_, ?_, ?_, ?_, ?_, ?_, ?_⟩
    · rw [fp, hptr, hml, Nat.mod_add_mod]
    · rw [fs, hml, hptr]
      exact ringStep_length C ts.length hC _ hcnd B.states t.state hls
    · rw [fa, hml, hptr]
      exact ringStep_length C ts.length hC _ hcnd B.actions t.action hla
    · rw [fr, hml, hptr]
      exact ringStep_length C ts.length hC _ hcnd B.rewards t.reward hlr
    · rw [fn, hml, hptr]
      exact ringStep_length C ts.length hC _ hcnd B.next_states t.next_state
        hln2
    · rw [fd, hml, hptr]
      exact ringStep_length C ts.length hC _ hcnd B.dones t.done hld
    · intro i hi
      refine ⟨?_, ?_, ?_, ?_, ?_⟩
      · rw [fs]
        exact key B.states Transition.state i hi hls
          (fun j hj => (hchar j hj).1)
      · rw [fa]
        exact key B.actions Transition.action i hi hla
          (fun j hj => (hchar j hj).2.1)
      · rw [fr]
        exact key B.rewards Transition.reward i hi hlr
          (fun j hj => (hchar j hj).2.2.1)
      · rw [fn]
        exact key B.next_states Transition.next_state i hi hln2
          (fun j hj => (hchar j hj).2.2.2.1)
      · rw [fd]
        exact key B.dones Transition.done i hi hld
          (fun j hj => (hchar j hj).2.2.2.2)

/-! # Claim theorems -/

theorem zipWith3_map {α β γ δ α2 β2 γ2 : Type}
    (f : α2 → β2 → γ2 → δ) (g1 : α → α2) (g2 : β → β2) (g3 : γ → γ2)
    (l1 : List α) (l2 : List β) (l3 : List γ) :
    List.zipWith3 f (l1.map g1) (l2.map g2) (l3.map g3) =
      List.zipWith3 (fun a b c => f (g1 a) (g2 b) (g3 c)) l1 l2 l3 := by
  induction l1 generalizing l2 l3 with
  | nil => simp [List.zipWith3]
  | cons x xs ih =>
    cases l2 with
    | nil => simp [List.zipWith3]
    | cons y ys =>
      cases l3 with
      | nil => simp [List.zipWith3]
      | cons z zs => simp [List.zipWith3, ih]

theorem liftL_val (l : List ℝ) : (liftL l).map Dual.val = l := by
  simp [liftL, List.map_map, Function.comp_def]

theorem liftM_val (m : List (List ℝ)) :
    (liftM m).map (List.map Dual.val) = m := by
  simp only [liftM, List.map_map, Function.comp_def, liftL_val]
  exact List.map_id _

theorem mean_val (l : List Dual) : (Dual.mean l).val = meanR (l.map Dual.val) := by
  simp [Dual.mean, meanR]

theorem mseD_val (q y : List Dual) :
    (mseD q y).val = mseR (q.map Dual.val) (y.map Dual.val) := by
  rw [mseD, mseR, mean_val, List.map_zipWith, List.zipWith_map]
  congr 1
  have : (fun (a b : Dual) => ((a - b).sq).val)
      = fun (a b : Dual) => (a.val - b.val) ^ 2 := by
    funext a b
    simp [Dual.sq]
    ring
  rw [this]

theorem linearD_val (W : List (List ℝ)) (b : List ℝ) (x : List Dual) :
    (linearD W b x).map Dual.val = linearR W b (x.map Dual.val) := by
  rw [linearD, linearR, List.map_zipWith]
  rfl

theorem reluD_map_val (l : List Dual) :
    (l.map Dual.relu).map Dual.val = (l.map Dual.val).map reluR := by
  simp [List.map_map, Function.comp_def, Dual.relu, reluR]

theorem QNet.forward_val (p : QParams) (s a : List Dual) :
    (QNet.forward p s a).val
      = QNet.applyR p (s.map Dual.val) (a.map Dual.val) := by
  rw [QNet.forward, QNet.applyR]
  simp only [Dual.val_add, Dual.val_cst]
  congr 1
  show (dotD p.fc3w _).val = dotR p.fc3w _
  rw [dotD]
  rw [reluD_map_val, linearD_val, List.map_append, reluD_map_val, linearD_val]

theorem QNet.apply_lift (p : QParams) (s a : List ℝ) :
    (QNet.forward p (liftL s) (liftL a)).val = QNet.applyR p s a := by
  rw [QNet.forward_val, liftL_val, liftL_val]

theorem normalLogProbD_val (μ σ x : Dual) :
    (normalLogProbD μ σ x).val = normalLogPdf μ.val σ.val x.val := by
  simp [normalLogProbD, normalLogPdf, Dual.sq, Dual.div]
  ring

theorem zipWith3_map12 {α β γ δ α2 β2 : Type}
    (f : α2 → β2 → γ → δ) (g1 : α → α2) (g2 : β → β2)
    (l1 : List α) (l2 : List β) (l3 : List γ) :
    List.zipWith3 f (l1.map g1) (l2.map g2) l3 =
      List.zipWith3 (fun a b c => f (g1 a) (g2 b) c) l1 l2 l3 := by
  induction l1 generalizing l2 l3 with
  | nil => simp [List.zipWith3]
  | cons x xs ih =>
    cases l2 with
    | nil => simp [List.zipWith3]
    | cons y ys =>
      cases l3 with
      | nil => simp [List.zipWith3]
      | cons z zs => simp [List.zipWith3, ih]

theorem zipWith3_map2 {α β γ δ β2 : Type}
    (f : α → β2 → γ → δ) (g2 : β → β2)
    (l1 : List α) (l2 : List β) (l3 : List γ) :
    List.zipWith3 f l1 (l2.map g2) l3 =
      List.zipWith3 (fun a b c => f a (g2 b) c) l1 l2 l3 := by
  induction l1 generalizing l2 l3 with
  | nil => simp [List.zipWith3]
  | cons x xs ih =>
    cases l2 with
    | nil => simp [List.zipWith3]
    | cons y ys =>
      cases l3 with
      | nil => simp [List.zipWith3]
      | cons z zs => simp [List.zipWith3, ih]

theorem stdsD_val (M : List (List Dual)) :
    (stdsD M).map (List.map Dual.val)
      = (M.map (List.map Dual.val)).map (List.map Real.exp) := by
  simp [stdsD, List.map_map, Function.comp_def, Dual.exp]

theorem acts_val (M S : List (List Dual)) (z : List (List ℝ)) :
    (newlySampledActionsD M S z).map (List.map Dual.val)
      = List.zipWith3
          (fun mr sr zr =>
            List.zipWith3 (fun (m s zi : ℝ) => m + zi * s) mr sr zr)
          (M.map (List.map Dual.val)) (S.map (List.map Dual.val)) z := by
  rw [newlySampledActionsD, map_zipWith3, zipWith3_map12]
  apply zipWith3_congr
  intro a b c
  rw [map_zipWith3, zipWith3_map12]
  rfl

theorem logProbs_val (M S A : List (List Dual)) :
    (logProbsD M S A).map (List.map Dual.val)
      = List.zipWith3
          (fun mr sr ar => List.zipWith3 normalLogPdf mr sr ar)
          (M.map (List.map Dual.val)) (S.map (List.map Dual.val))
          (A.map (List.map Dual.val)) := by
  rw [logProbsD, map_zipWith3, zipWith3_map]
  apply zipWith3_congr
  intro a b c
  rw [map_zipWith3, zipWith3_map]
  apply zipWith3_congr
  intro m s x
  exact normalLogProbD_val m s x

theorem qMinD_val (q1 q2 : QParams) (states acts : List (List Dual)) :
    (qMinD q1 q2 states acts).map Dual.val
      = List.zipWith
          (fun s a => min (QNet.applyR q1 s a) (QNet.applyR q2 s a))
          (states.map (List.map Dual.val)) (acts.map (List.map Dual.val)) := by
  rw [qMinD, List.map_zipWith, List.zipWith_map]
  have hfn : (fun (s a : List Dual) =>
        ((QNet.forward q1 s a).smin (QNet.forward q2 s a)).val)
      = fun (s a : List Dual) =>
          min (QNet.applyR q1 (s.map Dual.val) (a.map Dual.val))
            (QNet.applyR q2 (s.map Dual.val) (a.map Dual.val)) := by
    funext s a
    rw [Dual.val_smin, QNet.forward_val, QNet.forward_val]
  rw [hfn]

theorem valueLossD_val (V Q : List Dual) (lp : List (List Dual)) :
    (valueLossD V Q lp).val
      = valueLossR (V.map Dual.val) (Q.map Dual.val)
          (lp.map (List.map Dual.val)) := by
  rw [valueLossD, valueLossR, mean_val, List.map_flatten]
  congr 1
  rw [map_zipWith3, zipWith3_map]
  congr 1
  apply zipWith3_congr
  intro v q row
  rw [List.map_map, List.map_map]
  apply List.map_eq_map_iff.mpr
  intro l hl
  simp only [Function.comp_apply, Dual.sq, Dual.val_mul, Dual.val_sub,
    Dual.val_detach, Dual.val_cst]
  ring

theorem piLossD_val (lp : List (List Dual)) (Q : List Dual) :
    (piLossD lp Q).val
      = piLossR (lp.map (List.map Dual.val)) (Q.map Dual.val) := by
  rw [piLossD, piLossR, mean_val, List.map_flatten]
  congr 1
  rw [List.map_zipWith, List.zipWith_map]
  have hfn : (fun (q : Dual) (row : List Dual) =>
        (row.map (fun l => Dual.cst entropy_coeff * l - q)).map Dual.val)
      = fun (q : Dual) (row : List Dual) =>
          (row.map Dual.val).map (fun l => entropy_coeff * l - q.val) := by
    funext q row
    rw [List.map_map, List.map_map]
    rfl
  rw [hfn]

theorem actorMeans_eq (p : ActorParams) (st_b : List (List ℝ)) :
    (st_b.map (Actor.forward p)).map Prod.fst = actorMeans p st_b := by
  simp [actorMeans, List.map_map, Function.comp_def]

theorem actorStds_eq (p : ActorParams) (st_b : List (List ℝ)) :
    ((st_b.map (Actor.forward p)).map Prod.snd).map (List.map Real.exp)
      = actorStds p st_b := by
  simp [actorStds, List.map_map, Function.comp_def]

theorem smoothVec_getD (τ : ℝ) (p t : List ℝ) (i : ℕ) (h1 : i < p.length)
    (h2 : i < t.length) :
    (smoothVec τ p t).getD i 0 = p.getD i 0 * τ + t.getD i 0 * (1 - τ) := by
  rw [smoothVec,
    List.getD_eq_getElem _ _ (by rw [List.length_zipWith]; omega),
    List.getElem_zipWith, List.getD_eq_getElem _ _ h1,
    List.getD_eq_getElem _ _ h2]

theorem foldSmoothVec_getD (τ : ℝ) (t0 : List ℝ) (srcs : List (List ℝ))
    (i : ℕ) (hi : i < t0.length)
    (hlen : ∀ p ∈ srcs, p.length = t0.length) :
    (foldSmoothVec τ t0 srcs).getD i 0 =
      emaIter τ (t0.getD i 0) (srcs.map (fun p => p.getD i 0)) := by
  induction srcs generalizing t0 with
  | nil => simp [foldSmoothVec, emaIter]
  | cons p ps ih =>
    have hp : p.length = t0.length := hlen p (List.mem_cons_self _ _)
    have hstep : foldSmoothVec τ t0 (p :: ps) =
        foldSmoothVec τ (smoothVec τ p t0) ps := rfl
    rw [hstep]
    have hsl : (smoothVec τ p t0).length = t0.length := by
      rw [smoothVec, List.length_zipWith]; omega
    rw [ih (smoothVec τ p t0) (by omega)
      (fun q hq => by rw [hsl]; exact hlen q (List.mem_cons_of_mem _ hq))]
    have hseed : (smoothVec τ p t0).getD i 0 =
        p.getD i 0 * τ + t0.getD i 0 * (1 - τ) :=
      smoothVec_getD τ p t0 i (by omega) hi
    rw [hseed]
    rfl

theorem emaIter_closed (τ t0 : ℝ) (ps : List ℝ) :
    emaIter τ t0 ps = (1 - τ) ^ ps.length * t0 +
      ((List.range ps.length).map
        (fun k => τ * ps.getD k 0 * (1 - τ) ^ (ps.length - 1 - k))).sum := by
  induction ps generalizing t0 with
  | nil => simp [emaIter]
  | cons p ps ih =>
    have hstep : emaIter τ t0 (p :: ps) =
        emaIter τ (p * τ + t0 * (1 - τ)) ps := rfl
    rw [hstep, ih, List.length_cons, List.range_succ_eq_map, List.map_cons,
      List.sum_cons, List.map_map]
    have hsum : List.map ((fun k => τ * (p :: ps).getD k 0 *
          (1 - τ) ^ (ps.length + 1 - 1 - k)) ∘ Nat.succ) (List.range ps.length)
        = List.map (fun k => τ * ps.getD k 0 * (1 - τ) ^ (ps.length - 1 - k))
            (List.range ps.length) := by
      apply List.map_eq_map_iff.mpr
      intro k hk
      simp only [Function.comp_apply, List.getD_cons_succ]
      congr 2
      omega
    rw [hsum]
    simp only [List.getD_cons_zero, Nat.add_sub_cancel, Nat.sub_zero]
    rw [pow_succ]
    ring

theorem optimize_model_preserves {σa σq σv : Type}
    (stepA : σa → ActorParams → σa × ActorParams)
    (stepQ : σq → QParams × QParams → σq × (QParams × QParams))
    (stepV : σv → VParams → σv × VParams)
    (st : TrainState σa σq σv) (pick : List ℕ) (z : List (List ℝ))
    (l : ℝ × ℝ × ℝ) (st2 : TrainState σa σq σv)
    (h : optimize_model stepA stepQ stepV st pick z = .ok (l, st2)) :
    st2.vTarget = st.vTarget ∧ st2.memory = st.memory := by
  unfold optimize_model at h
  by_cases hlen : st.memory.size < train_batch_size
  · rw [if_pos hlen] at h
    simp only [Except.ok.injEq, Prod.mk.injEq] at h
    rw [← h.2]
    exact ⟨rfl, rfl⟩
  · rw [if_neg hlen] at h
    cases hs : st.memory.sample train_batch_size pick with
    | error e => rw [hs] at h; simp at h
    | ok batch =>
      obtain ⟨b1, b2, b3, b4, b5⟩ := batch
      rw [hs] at h
      simp only [Except.ok.injEq, Prod.mk.injEq] at h
      rw [← h.2]
      exact ⟨rfl, rfl⟩

theorem Q_vals_val (q : QParams) (st_b ac_b : List (List ℝ)) :
    (List.zipWith (fun s a => QNet.forward q (liftL s) (liftL a)) st_b
        ac_b).map Dual.val
      = List.zipWith (fun s a => QNet.applyR q s a) st_b ac_b := by
  rw [List.map_zipWith]
  have hfn : (fun (s a : List ℝ) => (QNet.forward q (liftL s) (liftL a)).val)
      = fun s a => QNet.applyR q s a := by
    funext s a
    exact QNet.apply_lift q s a
  rw [hfn]

theorem cstMap_val (f : List ℝ → ℝ) (l : List (List ℝ)) :
    (l.map (fun s => Dual.cst (f s))).map Dual.val = l.map f := by
  simp [List.map_map, Function.comp_def]

theorem ys_val (vt : VParams) (rew_b : List ℝ) (nst_b : List (List ℝ))
    (dn : List ℝ) :
    (List.zipWith3 (fun r vn d => criticTargetD (Dual.cst r) vn (Dual.cst d))
        rew_b (nst_b.map (fun s => Dual.cst (VNet.forward vt s))) dn).map
        Dual.val
      = criticTargetsR vt rew_b nst_b dn := by
  rw [map_zipWith3, zipWith3_map2, criticTargetsR]
  apply zipWith3_congr
  intro r s2 d
  simp only [criticTargetD, Dual.val_add, Dual.val_mul, Dual.val_sub,
    Dual.val_cst]
  ring

theorem population_length {S A R D : Type} (buf : ExpReplay S A R D)
    (hwf : buf.Wf) : buf.population.length = buf.size := by
  obtain ⟨ha, hr, hn, hd⟩ := hwf
  simp only [ExpReplay.population, ExpReplay.size, List.length_zipWith]
  omega

theorem population_getD {S A R D : Type} [Inhabited S] [Inhabited A]
    [Inhabited R] [Inhabited D] (buf : ExpReplay S A R D) (hwf : buf.Wf)
    (i : ℕ) (hi : i < buf.size) :
    buf.population.getD i default =
      (buf.states.getD i default, buf.actions.getD i default,
       buf.rewards.getD i default, buf.next_states.getD i default,
       buf.dones.getD i default) := by
  obtain ⟨ha, hr, hn, hd⟩ := hwf
  have hs : i < buf.states.length := hi
  have hpl : i < buf.population.length := by
    rw [population_length buf ⟨ha, hr, hn, hd⟩]; exact hi
  rw [List.getD_eq_getElem _ _ hpl,
    List.getD_eq_getElem _ _ hs,
    List.getD_eq_getElem _ _ (show i < buf.actions.length by omega),
    List.getD_eq_getElem _ _ (show i < buf.rewards.length by omega),
    List.getD_eq_getElem _ _ (show i < buf.next_states.length by omega),
    List.getD_eq_getElem _ _ (show i < buf.dones.length by omega)]
  simp [ExpReplay.population, List.getElem_zipWith]

theorem fullMemory_replicate_getD (j : ℕ) :
    (List.replicate 256 ((Transition.mk [] [] 0 [] false : Transition (List ℝ) (List ℝ) ℝ Bool))).getD j
        default = (Transition.mk [] [] 0 [] false : Transition (List ℝ) (List ℝ) ℝ Bool) := by
  by_cases hj : j < 256
  · rw [List.getD_eq_getElem _ _ (by rw [List.length_replicate]; exact hj)]
    rw [List.getElem_replicate]
  · rw [List.getD_eq_default _ _ (by rw [List.length_replicate]; omega)]
    rfl

theorem fullMemory_fields :
    fullMemory.size = 256 ∧ fullMemory.Wf ∧
    (∀ i, i < 256 →
      fullMemory.states.getD i default = [] ∧
      fullMemory.actions.getD i default = [] ∧
      fullMemory.rewards.getD i default = 0 ∧
      fullMemory.next_states.getD i default = [] ∧
      fullMemory.dones.getD i default = false) := by
  obtain ⟨hml, hptr, hls, hla, hlr, hln2, hld, hchar⟩ :=
    addAll_char replay_buffer_size (by norm_num [replay_buffer_size])
      (List.replicate 256 ((Transition.mk [] [] 0 [] false : Transition (List ℝ) (List ℝ) ℝ Bool)))
  have hmin : min (List.replicate 256
      ((Transition.mk [] [] 0 [] false : Transition (List ℝ) (List ℝ) ℝ Bool))).length replay_buffer_size
      = 256 := by
    rw [List.length_replicate]
    norm_num [replay_buffer_size]
  refine ⟨hls.trans hmin, ⟨?_, ?_, ?_, ?_⟩, ?_⟩
  · exact hla.trans (hmin.trans (hls.trans hmin).symm)
  · exact hlr.trans (hmin.trans (hls.trans hmin).symm)
  · exact hln2.trans (hmin.trans (hls.trans hmin).symm)
  · exact hld.trans (hmin.trans (hls.trans hmin).symm)
  · intro i hi
    obtain ⟨c1, c2, c3, c4, c5⟩ := hchar i (by omega)
    rw [fullMemory_replicate_getD] at c1 c2 c3 c4 c5
    exact ⟨c1, c2, c3, c4, c5⟩

theorem fullMemory_sample :
    fullMemory.sample train_batch_size (List.range 256) = .ok
      (List.replicate 256 [], List.replicate 256 [], List.replicate 256 0,
       List.replicate 256 [], List.replicate 256 false) := by
  obtain ⟨hsize, hwf, hvals⟩ := fullMemory_fields
  have hcond : train_batch_size ≤ fullMemory.population.length := by
    rw [population_length _ hwf, hsize]
    norm_num [train_batch_size]
  have hmap : (List.range 256).map
        (fun i => fullMemory.population.getD i default)
      = List.replicate 256
          (([] : List ℝ), ([] : List ℝ), (0 : ℝ), ([] : List ℝ), false) := by
    apply List.eq_replicate_iff.mpr
    refine ⟨by simp, ?_⟩
    intro b hb
    obtain ⟨i, hi, hbi⟩ := List.mem_map.mp hb
    have hi2 : i < 256 := List.mem_range.mp hi
    obtain ⟨c1, c2, c3, c4, c5⟩ := hvals i hi2
    rw [population_getD fullMemory hwf i (by omega), c1, c2, c3, c4, c5] at hbi
    exact hbi.symm
  rw [ExpReplay.sample, if_pos hcond, hmap]
  have h256 : (256 : ℕ) = 255 + 1 := by norm_num
  rw [h256, List.replicate_succ]
  simp only [unzip5, List.map_cons, List.map_replicate, Except.ok.injEq,
    Prod.mk.injEq]
  refine ⟨?_, ?_, ?_, ?_, ?_⟩ <;> (conv_rhs => rw [List.replicate_succ])

/-- Characterization of `optimize_model` (src/sac/main.py lines 120-161) on
the successful path: the returned losses equal the plain-real loss formulas
evaluated on the sampled batch and the parameters at entry, and the returned
state applies each optimizer stepper exactly once to its registered
parameters, leaving the target network and the memory untouched. -/
theorem optimize_model_ok_eq {σa σq σv : Type}
    (stepA : σa → ActorParams → σa × ActorParams)
    (stepQ : σq → QParams × QParams → σq × (QParams × QParams))
    (stepV : σv → VParams → σv × VParams)
    (st : TrainState σa σq σv) (pick : List ℕ) (z : List (List ℝ))
    (st_b ac_b : List (List ℝ)) (rew_b : List ℝ) (nst_b : List (List ℝ))
    (dn_b : List Bool)
    (hlen : ¬ st.memory.size < train_batch_size)
    (hs : st.memory.sample train_batch_size pick
      = .ok (st_b, ac_b, rew_b, nst_b, dn_b)) :
    optimize_model stepA stepQ stepV st pick z = .ok
      ((valueLossR (st_b.map (VNet.forward st.v))
          (qMinR st.q1 st.q2 st_b (sampledActionsR st.policy st_b z))
          (logProbsR st.policy st_b z),
        mseR (List.zipWith (fun s a => QNet.applyR st.q1 s a) st_b ac_b)
            (criticTargetsR st.vTarget rew_b nst_b
              (dn_b.map (fun d => if d then 1 else 0)))
          + mseR (List.zipWith (fun s a => QNet.applyR st.q2 s a) st_b ac_b)
              (criticTargetsR st.vTarget rew_b nst_b
                (dn_b.map (fun d => if d then 1 else 0))),
        piLossR (logProbsR st.policy st_b z)
          (qMinR st.q1 st.q2 st_b (sampledActionsR st.policy st_b z))),
       { st with
          v := (stepV st.optV st.v).2,
          optV := (stepV st.optV st.v).1,
          q1 := (stepQ st.optQ (st.q1, st.q2)).2.1,
          q2 := (stepQ st.optQ (st.q1, st.q2)).2.2,
          optQ := (stepQ st.optQ (st.q1, st.q2)).1,
          policy := (stepA st.optA st.policy).2,
          optA := (stepA st.optA st.policy).1 }) := by
  unfold optimize_model
  rw [if_neg hlen, hs]
  dsimp only
  simp only [valueLossD_val, criticLossD, Dual.val_add, mseD_val, piLossD_val,
    cstMap_val, qMinD_val, liftM_val, acts_val, stdsD_val, actorMeans_eq,
    actorStds_eq, logProbs_val, Q_vals_val, ys_val, sampledActionsR,
    logProbsR, qMinR]

theorem row_stopgrad (v q q2 : Dual) (r r2 : List Dual) (hq : q.val = q2.val)
    (hr : r.map Dual.val = r2.map Dual.val) :
    r.map (fun l => (v - (q.detach - Dual.cst entropy_coeff * l.detach)).sq)
      = r2.map
          (fun l => (v - (q2.detach - Dual.cst entropy_coeff * l.detach)).sq)
    := by
  induction r generalizing r2 with
  | nil =>
    cases r2 with
    | nil => rfl
    | cons y ys => simp at hr
  | cons x xs ih =>
    cases r2 with
    | nil => simp at hr
    | cons y ys =>
      simp only [List.map_cons, List.cons.injEq] at hr ⊢
      refine ⟨?_, ih ys hr.2⟩
      rw [Dual.detach_congr hq, Dual.detach_congr hr.1]

/-- The stop-gradient of src/sac/main.py line 145: the value-loss graph node —
value and tangent alike — depends on the detached regression-target inputs
(`Qmin`, log-probabilities) only through their values, never through their
tangents. -/
theorem valueLossD_stopgrad (V Q Q2 : List Dual) (L L2 : List (List Dual))
    (hQ : Q.map Dual.val = Q2.map Dual.val)
    (hL : L.map (List.map Dual.val) = L2.map (List.map Dual.val)) :
    valueLossD V Q L = valueLossD V Q2 L2 := by
  unfold valueLossD
  congr 1
  congr 1
  induction V generalizing Q Q2 L L2 with
  | nil => simp [List.zipWith3]
  | cons v vs ih =>
    cases Q with
    | nil =>
      cases Q2 with
      | nil => simp [List.zipWith3]
      | cons q2 qs2 => simp at hQ
    | cons q qs =>
      cases Q2 with
      | nil => simp at hQ
      | cons q2 qs2 =>
        cases L with
        | nil =>
          cases L2 with
          | nil => simp [List.zipWith3]
          | cons r2 rs2 => simp at hL
        | cons r rs =>
          cases L2 with
          | nil => simp at hL
          | cons r2 rs2 =>
            simp only [List.map_cons, List.cons.injEq] at hQ hL
            simp only [List.zipWith3, List.cons.injEq]
            exact ⟨row_stopgrad v q q2 r r2 hQ.1 hL.1, ih qs qs2 rs rs2 hQ.2 hL.2⟩

theorem flowPipe_facts :
    (flowPipe ⟨1, 1⟩).grad = -1 ∧ (flowPipe ⟨1, 0⟩).grad = 0 ∧
    (flowPipe ⟨1, 1⟩).val = (flowPipe ⟨1, 0⟩).val := by
  norm_num [flowPipe, piLossD, logProbsD, qMinD, stdsD, newlySampledActionsD,
    List.zipWith3, QNet.forward, linearD, dotD, dotR, tinyQ1, tinyQ2,
    normalLogProbD, Dual.cst, Dual.exp, Dual.log, Dual.relu, Dual.smin,
    Dual.sq, Dual.div, Dual.mean, Dual.detach, Real.exp_zero, Real.log_one,
    entropy_coeff]

theorem gaussPdf_pos (μ σ x : ℝ) (hσ : 0 < σ) : 0 < gaussPdf μ σ x := by
  unfold gaussPdf
  have h2π : 0 < Real.sqrt (2 * Real.pi) :=
    Real.sqrt_pos.mpr (by positivity)
  positivity

theorem normalLogPdf_eq_log (μ σ x : ℝ) (hσ : 0 < σ) :
    normalLogPdf μ σ x = Real.log (gaussPdf μ σ x) := by
  unfold normalLogPdf gaussPdf
  have h2π : 0 < Real.sqrt (2 * Real.pi) :=
    Real.sqrt_pos.mpr (by positivity)
  rw [Real.log_mul (by positivity) (Real.exp_ne_zero _), Real.log_inv,
    Real.log_mul (by positivity) (by positivity), Real.log_exp]
  ring

theorem gaussPdf_prod_pos (mr sr ar : List ℝ) (h : ∀ s ∈ sr, 0 < s) :
    0 < (List.zipWith3 gaussPdf mr sr ar).prod := by
  induction mr generalizing sr ar with
  | nil => simp [List.zipWith3]
  | cons m ms ih =>
    cases sr with
    | nil => simp [List.zipWith3]
    | cons s ss =>
      cases ar with
      | nil => simp [List.zipWith3]
      | cons a als =>
        simp only [List.zipWith3, List.prod_cons]
        exact mul_pos (gaussPdf_pos m s a (h s (List.mem_cons_self _ _)))
          (ih ss als (fun x hx => h x (List.mem_cons_of_mem _ hx)))

/-- The per-dimension Gaussian log-densities of a row sum to the log of the
product of the per-dimension densities: the log-density of the diagonal
Gaussian over the action vector. -/
theorem sum_normalLogPdf (mr sr ar : List ℝ) (h : ∀ s ∈ sr, 0 < s) :
    (List.zipWith3 normalLogPdf mr sr ar).sum
      = Real.log (List.zipWith3 gaussPdf mr sr ar).prod := by
  induction mr generalizing sr ar with
  | nil => simp [List.zipWith3]
  | cons m ms ih =>
    cases sr with
    | nil => simp [List.zipWith3]
    | cons s ss =>
      cases ar with
      | nil => simp [List.zipWith3]
      | cons a als =>
        simp only [List.zipWith3, List.sum_cons, List.prod_cons]
        rw [normalLogPdf_eq_log m s a (h s (List.mem_cons_self _ _)),
          ih ss als (fun x hx => h x (List.mem_cons_of_mem _ hx)),
          ← Real.log_mul
            (ne_of_gt (gaussPdf_pos m s a (h s (List.mem_cons_self _ _))))
            (ne_of_gt (gaussPdf_prod_pos ms ss als
              (fun x hx => h x (List.mem_cons_of_mem _ hx))))]

theorem actorStds_pos (p : ActorParams) (states : List (List ℝ)) :
    ∀ row ∈ actorStds p states, ∀ s ∈ row, 0 < s := by
  intro row hrow s hs
  obtain ⟨st0, hst0, hrow2⟩ := List.mem_map.mp hrow
  rw [← hrow2] at hs
  obtain ⟨l, hl, hsl⟩ := List.mem_map.mp hs
  rw [← hsl]
  exact Real.exp_pos l

theorem sampledActionsR_reparam (p : ActorParams) (states z : List (List ℝ)) :
    sampledActionsR p states z
      = List.zipWith3
          (fun mr lr zr =>
            List.zipWith3 (fun (m l zi : ℝ) => m + zi * Real.exp l) mr lr zr)
          (actorMeans p states)
          (states.map (fun s => (Actor.forward p s).2)) z := by
  have hstds : actorStds p states
      = (states.map (fun s => (Actor.forward p s).2)).map
          (List.map Real.exp) := by
    simp [actorStds, List.map_map, Function.comp_def]
  rw [sampledActionsR, hstds, zipWith3_map2]
  apply zipWith3_congr
  intro mr lr zr
  rw [zipWith3_map2]

/-- C6: for every sequence of insertions into a buffer of capacity `C`, the
logical size is `min(inserts, C)`; slot `i` always holds the transition of the
most recent insertion that wrote slot `i` (`lastWrite`, the ring invariant);
once capacity is reached every surviving transition is among the `C` most
recent ones and the slot the next insertion overwrites holds the oldest
surviving transition; and the concrete scenario — capacity 5, seven inserts
with rewards 1..7 — leaves exactly the rewards {3,4,5,6,7} and size 5. -/
theorem C6_ring_buffer {S A R D : Type} [Inhabited S] [Inhabited A]
    [Inhabited R] [Inhabited D] (C : ℕ) (ts : List (Transition S A R D))
    (i : ℕ) (hC : 0 < C) (hi : i < min ts.length C) :
    ((ExpReplay.init S A R D C).addAll ts).size = min ts.length C ∧
    ((ExpReplay.init S A R D C).addAll ts).rewards.getD i default =
      (ts.getD (lastWrite ts.length C i) default).reward ∧
    (C ≤ ts.length → ts.length - C ≤ lastWrite ts.length C i) ∧
    (C ≤ ts.length →
      ((ExpReplay.init S A R D C).addAll ts).states.getD (ts.length % C)
          default = (ts.getD (ts.length - C) default).state) ∧
    buf7.size = 5 ∧
    buf7.rewards = [6, 7, 3, 4, 5] ∧
    buf7.rewards.toFinset = ({3, 4, 5, 6, 7} : Finset ℕ) := by
  obtain ⟨hml, hptr, hls, hla, hlr, hln2, hld, hchar⟩ := addAll_char C hC ts
  refine ⟨hls, (hchar i hi).2.2.1, ?_, ?_, by decide, by decide, by decide⟩
  · intro hfull
    exact lastWrite_ge ts.length C i hC hfull (by omega)
  · intro hfull
    have hmod : ts.length % C < min ts.length C := by
      have := Nat.mod_lt ts.length hC
      omega
    have h1 := (hchar (ts.length % C) hmod).1
    rw [lastWrite_pointer ts.length C hC hfull] at h1
    exact h1

/-- Witness for C6 at the concrete capacity-5, seven-insert scenario. -/
theorem C6_ring_buffer_witness :
    buf7.size = min sevenTransitions.length 5 ∧
    buf7.rewards.getD 0 default =
      (sevenTransitions.getD (lastWrite sevenTransitions.length 5 0)
        default).reward ∧
    buf7.rewards.toFinset = ({3, 4, 5, 6, 7} : Finset ℕ) := by
  have h := C6_ring_buffer 5 sevenTransitions 0 (by norm_num) (by decide)
  exact ⟨h.1, h.2.1, h.2.2.2.2.2.2⟩

/-- C7 counterexample: on a buffer of size 1 ≥ 0, `sample(0)` does not return
an (empty) batch of 0 transitions — it raises the unpack `ValueError` from
`zip(*[])`, so the claim fails as stated for `batch_size = 0`. -/
theorem C7_batch_zero_fails :
    0 ≤ oneBuf.size ∧ ValidPick oneBuf.size 0 [] ∧
    oneBuf.sample 0 [] = .error .unpackMismatch :=
  ⟨Nat.zero_le _, by decide, rfl⟩

/-- C7 (amended): `sample(batch_size)` fails with the insufficient-data error
whenever `batch_size` exceeds the current size; and whenever
`1 ≤ batch_size ≤ size` it returns, for every possible randomness (a list of
distinct in-range positions — sampling is uniform over these picks, with no
ordering guarantee), exactly the transitions at the `batch_size` chosen
distinct slots.  (As stated the claim fails at `batch_size = 0`, see the
counterexample.) -/
theorem C7_sample_contract {S A R D : Type} [Inhabited S] [Inhabited A]
    [Inhabited R] [Inhabited D] (buf : ExpReplay S A R D) (k : ℕ)
    (pick : List ℕ) (hwf : buf.Wf) (hk : 1 ≤ k) (hkn : k ≤ buf.size)
    (hvp : ValidPick buf.size k pick) :
    (∀ k2 pick2, buf.size < k2 →
      buf.sample k2 pick2 = .error .insufficientData) ∧
    buf.sample k pick = .ok
      (pick.map (fun i => buf.states.getD i default),
       pick.map (fun i => buf.actions.getD i default),
       pick.map (fun i => buf.rewards.getD i default),
       pick.map (fun i => buf.next_states.getD i default),
       pick.map (fun i => buf.dones.getD i default)) ∧
    (pick.map (fun i => buf.states.getD i default)).length = k ∧
    pick.Nodup := by
  obtain ⟨hlen, hnd, hmem⟩ := hvp
  refine ⟨?_, ?_, by simpa using hlen, hnd⟩
  · intro k2 pick2 h
    rw [ExpReplay.sample, if_neg (by rw [population_length buf hwf]; omega)]
  · rw [ExpReplay.sample, if_pos (by rw [population_length buf hwf]; omega)]
    have hmap : pick.map (fun i => buf.population.getD i default) =
        pick.map (fun i =>
          (buf.states.getD i default, buf.actions.getD i default,
           buf.rewards.getD i default, buf.next_states.getD i default,
           buf.dones.getD i default)) :=
      List.map_eq_map_iff.mpr
        (fun i hi => population_getD buf hwf i (hmem i hi))
    cases hp : pick with
    | nil => rw [hp] at hlen; simp at hlen; omega
    | cons p rest =>
      rw [hp] at hmap
      simp only [List.map_cons] at hmap ⊢
      rw [hmap]
      simp only [unzip5, List.map_cons, List.map_map]
      rfl

/-- Witness for C7 at a concrete one-element buffer and singleton pick. -/
theorem C7_sample_contract_witness :
    oneBuf.sample 1 [0] = .ok
      ([0].map (fun i => oneBuf.states.getD i default),
       [0].map (fun i => oneBuf.actions.getD i default),
       [0].map (fun i => oneBuf.rewards.getD i default),
       [0].map (fun i => oneBuf.next_states.getD i default),
       [0].map (fun i => oneBuf.dones.getD i default)) :=
  (C7_sample_contract oneBuf 1 [0] ⟨rfl, rfl, rfl, rfl⟩ (by decide) (by decide)
    (by decide)).2.1

/-- C1: the target value parameters are initialized at construction to an
exact copy of the value network's parameters; each iteration of the inner
training loop applies the smoothing rule exactly once, immediately after the
optimization step (which leaves the target untouched), to the optimizer's
current value parameters; the rule is elementwise
`target <- param * coeff + target * (1 - coeff)`; after `N` smoothing steps
each target coordinate is the closed-form exponential moving average of the
`N` source snapshots and the initial value; and concretely, coefficient 1/2,
snapshots 1, 2, 3 from initial target 0 give 0.5, 1.25, 2.125. -/
theorem C1_target_ema {σa σq σv : Type}
    (stepA : σa → ActorParams → σa × ActorParams)
    (stepQ : σq → QParams × QParams → σq × (QParams × QParams))
    (stepV : σv → VParams → σv × VParams)
    (p0 : ActorParams) (q10 q20 : QParams) (v0 : VParams)
    (a0 : σa) (qo0 : σq) (vo0 : σv)
    (st : TrainState σa σq σv) (f : EnvFeedback) (l : ℝ × ℝ × ℝ)
    (st2 : TrainState σa σq σv)
    (τ t0 : ℝ) (ps : List ℝ) (t0v : List ℝ) (srcs : List (List ℝ)) (i : ℕ)
    (hopt : optimize_model stepA stepQ stepV
        { st with memory := st.memory.add (Transition.mk f.state (Actor.get_action st.policy f.state f.actionNoise) (reward_scaling * f.reward) f.next_state f.done) } f.pick f.z
      = .ok (l, st2))
    (hi : i < t0v.length) (hlen : ∀ q ∈ srcs, q.length = t0v.length) :
    (initTrainState p0 q10 q20 v0 a0 qo0 vo0 : TrainState σa σq σv).vTarget
      = v0 ∧
    (initTrainState p0 q10 q20 v0 a0 qo0 vo0 : TrainState σa σq σv).v = v0 ∧
    trainStepBody stepA stepQ stepV st f = .ok (l,
      { st2 with
        vTarget := smoothV target_smoothing_coeff st2.v st2.vTarget }) ∧
    st2.vTarget = st.vTarget ∧
    (∀ (pv tv : List ℝ) (j : ℕ), j < pv.length → j < tv.length →
      (smoothVec τ pv tv).getD j 0
        = pv.getD j 0 * τ + tv.getD j 0 * (1 - τ)) ∧
    (∀ sv tv : VParams,
      (smoothV τ sv tv).fc1W = smoothMat τ sv.fc1W tv.fc1W ∧
      (smoothV τ sv tv).fc1b = smoothVec τ sv.fc1b tv.fc1b ∧
      (smoothV τ sv tv).fc2W = smoothMat τ sv.fc2W tv.fc2W ∧
      (smoothV τ sv tv).fc2b = smoothVec τ sv.fc2b tv.fc2b ∧
      (smoothV τ sv tv).fc3w = smoothVec τ sv.fc3w tv.fc3w ∧
      (smoothV τ sv tv).fc3b = sv.fc3b * τ + tv.fc3b * (1 - τ)) ∧
    (foldSmoothVec τ t0v srcs).getD i 0
      = emaIter τ (t0v.getD i 0) (srcs.map (fun q => q.getD i 0)) ∧
    emaIter τ t0 ps = (1 - τ) ^ ps.length * t0 +
      ((List.range ps.length).map
        (fun k => τ * ps.getD k 0 * (1 - τ) ^ (ps.length - 1 - k))).sum ∧
    emaIter (1/2) 0 [1] = 0.5 ∧
    emaIter (1/2) 0 [1, 2] = 1.25 ∧
    emaIter (1/2) 0 [1, 2, 3] = 2.125 := by
  refine ⟨rfl, rfl, ?_, ?_,
    fun pv tv j h1 h2 => smoothVec_getD τ pv tv j h1 h2,
    fun sv tv => ⟨rfl, rfl, rfl, rfl, rfl, rfl⟩,
    foldSmoothVec_getD τ t0v srcs i hi hlen,
    emaIter_closed τ t0 ps,
    by norm_num [emaIter], by norm_num [emaIter], by norm_num [emaIter]⟩
  · simp only [trainStepBody]
    rw [hopt]
  · exact (optimize_model_preserves stepA stepQ stepV _ f.pick f.z l st2
      hopt).1

/-- Witness for C1 at a concrete state (the no-op optimization branch) and
the concrete EMA scenario. -/
theorem C1_target_ema_witness :
    (initTrainState zeroActor zeroQ zeroQ zeroV () () () :
      TrainState Unit Unit Unit).vTarget = zeroV ∧
    emaIter (1/2) 0 [1, 2, 3] = 2.125 := by
  have hsz : ({ tinyState with memory := tinyState.memory.add (Transition.mk tinyFeedback.state (Actor.get_action tinyState.policy tinyFeedback.state tinyFeedback.actionNoise) (reward_scaling * tinyFeedback.reward) tinyFeedback.next_state tinyFeedback.done) } : TrainState Unit Unit Unit).memory.size < train_batch_size := by
    norm_num [tinyState, tinyFeedback, initTrainState, ExpReplay.init,
      ExpReplay.add, ExpReplay.size, train_batch_size, replay_buffer_size]
  have hopt : optimize_model idStepA idStepQ idStepV
      { tinyState with memory := tinyState.memory.add (Transition.mk tinyFeedback.state (Actor.get_action tinyState.policy tinyFeedback.state tinyFeedback.actionNoise) (reward_scaling * tinyFeedback.reward) tinyFeedback.next_state tinyFeedback.done) }
      tinyFeedback.pick tinyFeedback.z
      = .ok ((0, 0, 0),
        { tinyState with memory := tinyState.memory.add (Transition.mk tinyFeedback.state (Actor.get_action tinyState.policy tinyFeedback.state tinyFeedback.actionNoise) (reward_scaling * tinyFeedback.reward) tinyFeedback.next_state tinyFeedback.done) }) := by
    rw [optimize_model, if_pos hsz]
  have h := C1_target_ema idStepA idStepQ idStepV zeroActor zeroQ zeroQ zeroV
    () () () tinyState tinyFeedback (0, 0, 0) _ (1/2) 0 [1, 2, 3] [0]
    [[1], [2], [3]] 0 hopt (by norm_num)
    (by
      intro q hq
      simp only [List.mem_cons, List.not_mem_nil, or_false] at hq
      rcases hq with rfl | rfl | rfl <;> rfl)
  exact ⟨h.1, h.2.2.2.2.2.2.2.2.2.2⟩

/-- C2: on every successful optimization step, the critic loss returned is the
sum of the two mean-squared errors of the critics against the target
`y = r + gamma * (1 - done) * V_target(s')`, where `V_target` is the target
network at entry to the step — the smoothing update of the same loop
iteration happens only after `optimize_model` returns, and `optimize_model`
leaves the target untouched (the lag, together with C1's loop-order
conjunct); both critic parameter sets are produced by a single application of
the joint critic optimizer stepper to the pair (one gradient step on the
summed loss, not two separate steps), and exchanging that stepper changes
nothing outside the two critics and the critic optimizer state. -/
theorem C2_critic_update {σa σq σv : Type}
    (stepA : σa → ActorParams → σa × ActorParams)
    (stepQ stepQ2 : σq → QParams × QParams → σq × (QParams × QParams))
    (stepV : σv → VParams → σv × VParams)
    (st : TrainState σa σq σv) (pick : List ℕ) (z : List (List ℝ))
    (st_b ac_b : List (List ℝ)) (rew_b : List ℝ) (nst_b : List (List ℝ))
    (dn_b : List Bool)
    (hlen : train_batch_size ≤ st.memory.size)
    (hs : st.memory.sample train_batch_size pick
      = .ok (st_b, ac_b, rew_b, nst_b, dn_b)) :
    ∃ Jv Jpi st2,
      optimize_model stepA stepQ stepV st pick z = .ok
        ((Jv,
          mseR (List.zipWith (fun s a => QNet.applyR st.q1 s a) st_b ac_b)
              (criticTargetsR st.vTarget rew_b nst_b
                (dn_b.map (fun d => if d then 1 else 0)))
            + mseR (List.zipWith (fun s a => QNet.applyR st.q2 s a) st_b ac_b)
                (criticTargetsR st.vTarget rew_b nst_b
                  (dn_b.map (fun d => if d then 1 else 0))),
          Jpi), st2) ∧
      st2.q1 = (stepQ st.optQ (st.q1, st.q2)).2.1 ∧
      st2.q2 = (stepQ st.optQ (st.q1, st.q2)).2.2 ∧
      st2.optQ = (stepQ st.optQ (st.q1, st.q2)).1 ∧
      st2.vTarget = st.vTarget ∧
      st2.memory = st.memory ∧
      optimize_model stepA stepQ2 stepV st pick z = .ok
        ((Jv,
          mseR (List.zipWith (fun s a => QNet.applyR st.q1 s a) st_b ac_b)
              (criticTargetsR st.vTarget rew_b nst_b
                (dn_b.map (fun d => if d then 1 else 0)))
            + mseR (List.zipWith (fun s a => QNet.applyR st.q2 s a) st_b ac_b)
                (criticTargetsR st.vTarget rew_b nst_b
                  (dn_b.map (fun d => if d then 1 else 0))),
          Jpi),
         { st2 with q1 := (stepQ2 st.optQ (st.q1, st.q2)).2.1,
                    q2 := (stepQ2 st.optQ (st.q1, st.q2)).2.2,
                    optQ := (stepQ2 st.optQ (st.q1, st.q2)).1 }) := by
  refine ⟨_, _, _,
    optimize_model_ok_eq stepA stepQ stepV st pick z st_b ac_b rew_b nst_b
      dn_b (by omega) hs,
    rfl, rfl, rfl, rfl, rfl, ?_⟩
  exact optimize_model_ok_eq stepA stepQ2 stepV st pick z st_b ac_b rew_b
    nst_b dn_b (by omega) hs

attribute [irreducible] fullMemory

theorem fullState_memory : fullState.memory = fullMemory := rfl

/-- Witness for C2 at a concrete full-batch state. -/
theorem C2_critic_update_witness :
    ∃ (l : ℝ × ℝ × ℝ) (st2 : TrainState Unit Unit Unit),
      optimize_model idStepA idStepQ idStepV fullState (List.range 256) []
        = .ok (l, st2) ∧ st2.vTarget = fullState.vTarget := by
  obtain ⟨Jv, Jpi, st2, h1, _, _, _, h5, _, _⟩ :=
    C2_critic_update idStepA idStepQ idStepQ idStepV fullState
      (List.range 256) [] (List.replicate 256 []) (List.replicate 256 [])
      (List.replicate 256 0) (List.replicate 256 []) (List.replicate 256 false)
      (by rw [fullState_memory,
            fullMemory_fields.1]
          norm_num [train_batch_size])
      (by rw [fullState_memory]
          exact fullMemory_sample)
  exact ⟨_, st2, h1, h5⟩

/-- C3: on every successful optimization step, the value loss returned is the
mean of the squared broadcast differences
`(V(s) - (Qmin' - entropy_coeff * logprob(a')))^2`, where the regression
target is detached: the value-loss graph node is invariant under any change
to the tangents of `Qmin'` and of the log-probabilities (stop-gradient);
`entropy_coeff` is the fixed constant `-1e-10`; the value stepper's output
lands in the value network's parameters and its optimizer state, and
exchanging the value stepper changes nothing else of the result. -/
theorem C3_value_update {σa σq σv : Type}
    (stepA : σa → ActorParams → σa × ActorParams)
    (stepQ : σq → QParams × QParams → σq × (QParams × QParams))
    (stepV stepV2 : σv → VParams → σv × VParams)
    (st : TrainState σa σq σv) (pick : List ℕ) (z : List (List ℝ))
    (st_b ac_b : List (List ℝ)) (rew_b : List ℝ) (nst_b : List (List ℝ))
    (dn_b : List Bool)
    (hlen : train_batch_size ≤ st.memory.size)
    (hs : st.memory.sample train_batch_size pick
      = .ok (st_b, ac_b, rew_b, nst_b, dn_b)) :
    ∃ Jq Jpi st2,
      optimize_model stepA stepQ stepV st pick z = .ok
        ((valueLossR (st_b.map (VNet.forward st.v))
            (qMinR st.q1 st.q2 st_b (sampledActionsR st.policy st_b z))
            (logProbsR st.policy st_b z), Jq, Jpi), st2) ∧
      entropy_coeff = -1e-10 ∧
      st2.v = (stepV st.optV st.v).2 ∧
      st2.optV = (stepV st.optV st.v).1 ∧
      (∀ (V Q Q2 : List Dual) (L L2 : List (List Dual)),
        Q.map Dual.val = Q2.map Dual.val →
        L.map (List.map Dual.val) = L2.map (List.map Dual.val) →
        valueLossD V Q L = valueLossD V Q2 L2) ∧
      optimize_model stepA stepQ stepV2 st pick z = .ok
        ((valueLossR (st_b.map (VNet.forward st.v))
            (qMinR st.q1 st.q2 st_b (sampledActionsR st.policy st_b z))
            (logProbsR st.policy st_b z), Jq, Jpi),
         { st2 with v := (stepV2 st.optV st.v).2,
                    optV := (stepV2 st.optV st.v).1 }) := by
  refine ⟨_, _, _,
    optimize_model_ok_eq stepA stepQ stepV st pick z st_b ac_b rew_b nst_b
      dn_b (by omega) hs,
    rfl, rfl, rfl, valueLossD_stopgrad, ?_⟩
  exact optimize_model_ok_eq stepA stepQ stepV2 st pick z st_b ac_b rew_b
    nst_b dn_b (by omega) hs

/-- Witness for C3 at a concrete full-batch state. -/
theorem C3_value_update_witness :
    ∃ (l : ℝ × ℝ × ℝ) (st2 : TrainState Unit Unit Unit),
      optimize_model idStepA idStepQ idStepV fullState (List.range 256) []
        = .ok (l, st2) ∧ st2.v = (idStepV fullState.optV fullState.v).2 := by
  obtain ⟨Jq, Jpi, st2, h1, _, h3, _, _, _⟩ :=
    C3_value_update idStepA idStepQ idStepV idStepV fullState
      (List.range 256) [] (List.replicate 256 []) (List.replicate 256 [])
      (List.replicate 256 0) (List.replicate 256 []) (List.replicate 256 false)
      (by rw [fullState_memory, fullMemory_fields.1]
          norm_num [train_batch_size])
      (by rw [fullState_memory]
          exact fullMemory_sample)
  exact ⟨_, st2, h1, h3⟩

/-- C4: on every successful optimization step, the policy loss returned is the
mean of the broadcast `entropy_coeff * logprob(a') - Qmin'`; the policy
stepper's output lands in the policy parameters and the actor optimizer state
only (exchanging it changes nothing else); and `Qmin'` is NOT detached:
on the concrete one-dimensional pipeline `flowPipe` (the source's lines
136-143 and 157 with critics `relu(a)` and `relu(a) + 1`), seeding the
actor's mean output with tangent 1 propagates through the sampled action
`a' = mean + 1 * exp(0)` into the critic and yields policy-loss tangent `-1`
(the log-probability contributes no tangent there), while the zero seed
yields tangent 0 at identical values — so the gradient flows from the critic
evaluation back through `a'` into the policy's outputs. -/
theorem C4_policy_update {σa σq σv : Type}
    (stepA stepA2 : σa → ActorParams → σa × ActorParams)
    (stepQ : σq → QParams × QParams → σq × (QParams × QParams))
    (stepV : σv → VParams → σv × VParams)
    (st : TrainState σa σq σv) (pick : List ℕ) (z : List (List ℝ))
    (st_b ac_b : List (List ℝ)) (rew_b : List ℝ) (nst_b : List (List ℝ))
    (dn_b : List Bool)
    (hlen : train_batch_size ≤ st.memory.size)
    (hs : st.memory.sample train_batch_size pick
      = .ok (st_b, ac_b, rew_b, nst_b, dn_b)) :
    ∃ Jv Jq st2,
      optimize_model stepA stepQ stepV st pick z = .ok
        ((Jv, Jq,
          piLossR (logProbsR st.policy st_b z)
            (qMinR st.q1 st.q2 st_b (sampledActionsR st.policy st_b z))),
         st2) ∧
      st2.policy = (stepA st.optA st.policy).2 ∧
      st2.optA = (stepA st.optA st.policy).1 ∧
      (flowPipe ⟨1, 1⟩).grad = -1 ∧
      (flowPipe ⟨1, 0⟩).grad = 0 ∧
      (flowPipe ⟨1, 1⟩).val = (flowPipe ⟨1, 0⟩).val ∧
      optimize_model stepA2 stepQ stepV st pick z = .ok
        ((Jv, Jq,
          piLossR (logProbsR st.policy st_b z)
            (qMinR st.q1 st.q2 st_b (sampledActionsR st.policy st_b z))),
         { st2 with policy := (stepA2 st.optA st.policy).2,
                    optA := (stepA2 st.optA st.policy).1 }) := by
  refine ⟨_, _, _,
    optimize_model_ok_eq stepA stepQ stepV st pick z st_b ac_b rew_b nst_b
      dn_b (by omega) hs,
    rfl, rfl, flowPipe_facts.1, flowPipe_facts.2.1, flowPipe_facts.2.2, ?_⟩
  exact optimize_model_ok_eq stepA2 stepQ stepV st pick z st_b ac_b rew_b
    nst_b dn_b (by omega) hs

/-- Witness for C4 at a concrete full-batch state. -/
theorem C4_policy_update_witness :
    ∃ (l : ℝ × ℝ × ℝ) (st2 : TrainState Unit Unit Unit),
      optimize_model idStepA idStepQ idStepV fullState (List.range 256) []
        = .ok (l, st2) ∧
      st2.policy = (idStepA fullState.optA fullState.policy).2 := by
  obtain ⟨Jv, Jq, st2, h1, h2, _, _, _, _, _⟩ :=
    C4_policy_update idStepA idStepA idStepQ idStepV fullState
      (List.range 256) [] (List.replicate 256 []) (List.replicate 256 [])
      (List.replicate 256 0) (List.replicate 256 []) (List.replicate 256 false)
      (by rw [fullState_memory, fullMemory_fields.1]
          norm_num [train_batch_size])
      (by rw [fullState_memory]
          exact fullMemory_sample)
  exact ⟨_, st2, h1, h2⟩

/-- C5: on every successful optimization step the newly sampled actions are
`a' = mean + z * exp(logstd)` with `z` the standard-normal draw
(reparameterization); their log-probabilities are the plain per-dimension
Gaussian log-densities of `a'` under `(mean, exp(logstd))` — the formula
`normalLogPdf` is exactly the log of the Gaussian density `gaussPdf`, and the
per-sample sum is the log-density of the diagonal Gaussian over the action
vector, with no tanh-squash Jacobian term anywhere; the standard deviations
`exp(logstd)` are positive so the densities are defined; the losses built on
`a'` are the ones `optimize_model` returns; and `a'` does not depend on the
actions stored in the buffer: a batch identical except for its stored
actions produces identical value and policy losses. -/
theorem C5_reparam_logprob {σa σq σv : Type}
    (stepA : σa → ActorParams → σa × ActorParams)
    (stepQ : σq → QParams × QParams → σq × (QParams × QParams))
    (stepV : σv → VParams → σv × VParams)
    (st : TrainState σa σq σv) (pick : List ℕ) (z : List (List ℝ))
    (st_b ac_b : List (List ℝ)) (rew_b : List ℝ) (nst_b : List (List ℝ))
    (dn_b : List Bool)
    (hlen : train_batch_size ≤ st.memory.size)
    (hs : st.memory.sample train_batch_size pick
      = .ok (st_b, ac_b, rew_b, nst_b, dn_b)) :
    sampledActionsR st.policy st_b z
      = List.zipWith3
          (fun mr lr zr =>
            List.zipWith3 (fun (m l zi : ℝ) => m + zi * Real.exp l) mr lr zr)
          (actorMeans st.policy st_b)
          (st_b.map (fun s => (Actor.forward st.policy s).2)) z ∧
    (∀ μ σ x : ℝ, 0 < σ →
      normalLogPdf μ σ x = Real.log (gaussPdf μ σ x)) ∧
    (∀ mr sr ar : List ℝ, (∀ s ∈ sr, 0 < s) →
      (List.zipWith3 normalLogPdf mr sr ar).sum
        = Real.log (List.zipWith3 gaussPdf mr sr ar).prod) ∧
    (∀ row ∈ actorStds st.policy st_b, ∀ s ∈ row, 0 < s) ∧
    (∃ Jq st2,
      optimize_model stepA stepQ stepV st pick z = .ok
        ((valueLossR (st_b.map (VNet.forward st.v))
            (qMinR st.q1 st.q2 st_b (sampledActionsR st.policy st_b z))
            (logProbsR st.policy st_b z),
          Jq,
          piLossR (logProbsR st.policy st_b z)
            (qMinR st.q1 st.q2 st_b (sampledActionsR st.policy st_b z))),
         st2)) ∧
    (∀ (mem2 : ExpReplay (List ℝ) (List ℝ) ℝ Bool) (pick2 : List ℕ)
      (ac_b2 : List (List ℝ)),
      ¬ mem2.size < train_batch_size →
      mem2.sample train_batch_size pick2
        = .ok (st_b, ac_b2, rew_b, nst_b, dn_b) →
      ∃ Jq2 st3,
        optimize_model stepA stepQ stepV { st with memory := mem2 } pick2 z
          = .ok
            ((valueLossR (st_b.map (VNet.forward st.v))
                (qMinR st.q1 st.q2 st_b (sampledActionsR st.policy st_b z))
                (logProbsR st.policy st_b z),
              Jq2,
              piLossR (logProbsR st.policy st_b z)
                (qMinR st.q1 st.q2 st_b
                  (sampledActionsR st.policy st_b z))),
             st3)) := by
  refine ⟨sampledActionsR_reparam st.policy st_b z, normalLogPdf_eq_log,
    sum_normalLogPdf, actorStds_pos st.policy st_b, ⟨_, _,
      optimize_model_ok_eq stepA stepQ stepV st pick z st_b ac_b rew_b nst_b
        dn_b (by omega) hs⟩, ?_⟩
  intro mem2 pick2 ac_b2 hlen2 hs2
  exact ⟨_, _,
    optimize_model_ok_eq stepA stepQ stepV { st with memory := mem2 } pick2 z
      st_b ac_b2 rew_b nst_b dn_b hlen2 hs2⟩

/-- Witness for C5 at a concrete full-batch state and a concrete density
instance. -/
theorem C5_reparam_logprob_witness :
    normalLogPdf 0 1 0 = Real.log (gaussPdf 0 1 0) ∧
    (∀ row ∈ actorStds zeroActor (List.replicate 256 ([] : List ℝ)),
      ∀ s ∈ row, 0 < s) := by
  obtain ⟨h1, h2, h3, h4, h5, h6⟩ :=
    C5_reparam_logprob idStepA idStepQ idStepV fullState
      (List.range 256) [] (List.replicate 256 []) (List.replicate 256 [])
      (List.replicate 256 0) (List.replicate 256 []) (List.replicate 256 false)
      (by rw [fullState_memory, fullMemory_fields.1]
          norm_num [train_batch_size])
      (by rw [fullState_memory]
          exact fullMemory_sample)
  exact ⟨h2 0 1 0 (by norm_num), h4⟩

/-- C8: whenever the buffer holds fewer than `train_batch_size` transitions,
`optimize_model` is a no-op: it returns the all-zero loss triple and the
training state — every parameter of the policy, both critics, the value
network, the target network, the memory, and all three optimizer states —
unchanged. -/
theorem C8_underfull_noop {σa σq σv : Type}
    (stepA : σa → ActorParams → σa × ActorParams)
    (stepQ : σq → QParams × QParams → σq × (QParams × QParams))
    (stepV : σv → VParams → σv × VParams)
    (st : TrainState σa σq σv) (pick : List ℕ) (z : List (List ℝ))
    (h : st.memory.size < train_batch_size) :
    optimize_model stepA stepQ stepV st pick z = .ok ((0, 0, 0), st) := by
  simp [optimize_model, h]

/-- C9: the deterministic action used during evaluation equals
`tanh(mean(state)) * action_scale` (the `action_scale` of the policy is the
environment bound `high` used at line 175, linked by the construction at line
195), involves no sampling — it coincides with the stochastic action
computation at identically-zero noise — and is a pure function of the input
state and the current parameters: evaluations at equal states agree. -/
theorem C9_eval_deterministic (p : ActorParams) (high state state2 : List ℝ)
    (hlink : p.action_scale = high)
    (hlen : (Actor.forward p state).2.length = (Actor.forward p state).1.length)
    (heq : state = state2) :
    evalAction p high state =
      List.zipWith (fun m h => Real.tanh m * h) (Actor.forward p state).1 high ∧
    evalAction p high state = evalAction p high state2 ∧
    evalAction p high state =
      Actor.get_action p state
        (List.replicate (Actor.forward p state).1.length 0) := by
  refine ⟨rfl, by rw [heq], ?_⟩
  simp only [evalAction, Actor.get_action]
  rw [zero_noise_tanh _ _ hlen, hlink, List.zipWith_map_left]

/-- Witness for C9 at the concrete empty-layer actor. -/
theorem C9_eval_deterministic_witness :
    evalAction zeroActor [] [] =
      Actor.get_action zeroActor []
        (List.replicate (Actor.forward zeroActor []).1.length 0) :=
  (C9_eval_deterministic zeroActor [] [] [] rfl rfl rfl).2.2

/-- C10 (implicit): for every state and every realization of the sampling
noise, each component of the stochastic action is bounded in magnitude by the
corresponding component of the action-scale vector, and the deterministic
evaluation action is bounded by the environment bound vector in the same
way. -/
theorem C10_actions_bounded (p : ActorParams) (state noise high : List ℝ)
    (i : ℕ) (h1 : i < (Actor.get_action p state noise).length)
    (h2 : i < (evalAction p high state).length) :
    |(Actor.get_action p state noise).getD i 0| ≤ |p.action_scale.getD i 0| ∧
    |(evalAction p high state).getD i 0| ≤ |high.getD i 0| := by
  constructor
  · simp only [Actor.get_action] at h1 ⊢
    rw [List.getD_eq_getElem _ _ h1]
    have hlen := h1
    rw [List.length_zipWith] at hlen
    have hs : i < p.action_scale.length := lt_of_lt_of_le hlen (min_le_right _ _)
    have ht : i <
        (List.zipWith3 (fun m ls e => Real.tanh (m + e * Real.exp ls))
          (Actor.forward p state).1 (Actor.forward p state).2 noise).length :=
      lt_of_lt_of_le hlen (min_le_left _ _)
    rw [List.getElem_zipWith, List.getD_eq_getElem _ _ hs]
    rw [abs_mul]
    have hmem :
        (List.zipWith3 (fun m ls e => Real.tanh (m + e * Real.exp ls))
          (Actor.forward p state).1 (Actor.forward p state).2 noise)[i] ∈
        List.zipWith3 (fun m ls e => Real.tanh (m + e * Real.exp ls))
          (Actor.forward p state).1 (Actor.forward p state).2 noise :=
      List.getElem_mem ht
    obtain ⟨x, hx⟩ := tanh_image_zipWith3 _ _ _ _ hmem
    calc |(List.zipWith3 (fun m ls e => Real.tanh (m + e * Real.exp ls))
            (Actor.forward p state).1 (Actor.forward p state).2 noise)[i]| *
          |p.action_scale[i]|
        ≤ 1 * |p.action_scale[i]| := by
          apply mul_le_mul_of_nonneg_right _ (abs_nonneg _)
          rw [hx]; exact abs_tanh_le_one x
      _ = |p.action_scale[i]| := one_mul _
  · simp only [evalAction] at h2 ⊢
    rw [List.getD_eq_getElem _ _ h2]
    have hlen := h2
    rw [List.length_zipWith] at hlen
    have hs : i < high.length := lt_of_lt_of_le hlen (min_le_right _ _)
    rw [List.getElem_zipWith, List.getD_eq_getElem _ _ hs, abs_mul]
    calc |Real.tanh (Actor.forward p state).1[i]| * |high[i]|
        ≤ 1 * |high[i]| :=
          mul_le_mul_of_nonneg_right (abs_tanh_le_one _) (abs_nonneg _)
      _ = |high[i]| := one_mul _

/-- Witness for C10 at a one-dimensional actor with no hidden structure. -/
theorem C10_actions_bounded_witness :
    |(Actor.get_action ⟨[], [], [], [], [[]], [1], [[]], [1], [2]⟩ [] [0]).getD
        0 0| ≤
      |([2] : List ℝ).getD 0 0| ∧
    |(evalAction ⟨[], [], [], [], [[]], [1], [[]], [1], [2]⟩ [3] []).getD 0 0| ≤
      |([3] : List ℝ).getD 0 0| :=
  ⟨(C10_actions_bounded ⟨[], [], [], [], [[]], [1], [[]], [1], [2]⟩ [] [0] [3]
      0 (by simp [Actor.get_action, Actor.forward, linearR, dotR, clampR, List.zipWith3])
      (by simp [evalAction, Actor.forward, linearR, dotR])).1,
   (C10_actions_bounded ⟨[], [], [], [], [[]], [1], [[]], [1], [2]⟩ [] [0] [3]
      0 (by simp [Actor.get_action, Actor.forward, linearR, dotR, clampR, List.zipWith3])
      (by simp [evalAction, Actor.forward, linearR, dotR])).2⟩

/-- Witness for C8 at a concrete underfull state. -/
theorem C8_underfull_noop_witness :
    tinyState.memory.size < train_batch_size ∧
    optimize_model idStepA idStepQ idStepV tinyState [] [] =
      .ok ((0, 0, 0), tinyState) := by
  refine ⟨?_, C8_underfull_noop idStepA idStepQ idStepV tinyState [] [] ?_⟩ <;>
    norm_num [tinyState, initTrainState, ExpReplay.init, ExpReplay.size,
      train_batch_size]

end SAC
